import Mathlib

/-!
Verification development for the psibot orchestration core: a shallow
embedding of the job scheduler (`src/scheduler/index.ts`), the job executor
(`src/scheduler/executor.ts`), the run supervisor (`AgentService.run` in
`src/agent/index.ts`) and the Telegram message splitter
(`src/telegram/format.ts`), together with theorems about the scheduling,
budget, pause/skip, safety-interrupt and persistence behaviour of those
components.

Conventions of the embedding:
* Timestamps are natural numbers (milliseconds); the source stores ISO-8601
  strings and compares `Date` objects, which is order-isomorphic.
* Dollar amounts (`max_budget_usd`, `cost_usd`) are rationals; the source
  uses JS numbers, and only order comparisons on them matter here.
* The SQLite job store is a pair of lists (jobs, runs); `UPDATE ... WHERE
  id = ?` becomes a map over the list that rewrites every row whose id
  matches.
* The external execution engine (`query()` from the agent SDK) is an
  oracle: its event stream is a parameter (a list of events), and a thrown
  engine error is a parameter describing where iteration stopped.
-/

namespace Psibot

/-- `Job.type` from `src/shared/types.ts`: `"cron" | "once"`. -/
inductive JobType where
  | cron
  | once
deriving DecidableEq, Repr

/-- `Job.status` from `src/shared/types.ts`:
`"enabled" | "disabled" | "completed" | "failed"`. -/
inductive JobStatus where
  | enabled
  | disabled
  | completed
  | failed
deriving DecidableEq, Repr

/-- `RunStatus` from `src/shared/types.ts`:
`"running" | "success" | "error" | "budget_exceeded"`. -/
inductive RunStatus where
  | running
  | success
  | error
  | budget_exceeded
deriving DecidableEq, Repr

/-- `StopReason` from `src/shared/types.ts`. -/
inductive StopReason where
  | end_turn
  | max_turns
  | budget_exceeded
  | interrupted
  | stale_timeout
  | message_limit
  | error
  | unknown
deriving DecidableEq, Repr

/-- The `Job` row (`src/shared/types.ts`).  `created_at`/`updated_at` are
bookkeeping columns never read by the orchestration core and are omitted. -/
structure Job where
  id : Nat
  name : String
  prompt : String
  type : JobType
  schedule : Option String
  run_at : Option Nat
  max_budget_usd : ℚ
  allowed_tools : Option String
  use_browser : Bool
  model : Option String
  paused_until : Option Nat
  skip_runs : Nat
  status : JobStatus
  last_run_at : Option Nat
  next_run_at : Option Nat
deriving DecidableEq, Repr

/-- The `JobRun` row (`src/shared/types.ts`).  `started_at`/`completed_at`
are wall-clock columns written by SQLite defaults and are omitted. -/
structure JobRun where
  id : Nat
  job_id : Nat
  status : RunStatus
  result : Option String
  error : Option String
  cost_usd : Option ℚ
  duration_ms : Option Nat
deriving DecidableEq, Repr

/-- The persisted state touched by the scheduler/executor: the `jobs` and
`job_runs` tables of `src/db/queries.ts`. -/
structure Store where
  jobs : List Job
  runs : List JobRun
deriving DecidableEq, Repr

/-- `getJob` (`src/db/queries.ts`): `SELECT * FROM jobs WHERE id = ?`. -/
def getJob (st : Store) (id : Nat) : Option Job :=
  st.jobs.find? (fun j => j.id == id)

/-- `getEnabledJobs` (`src/db/queries.ts`):
`SELECT * FROM jobs WHERE status = 'enabled' ORDER BY id`.  The embedding
keeps the rows in table order; ordering is irrelevant to the theorems
below because each job is scheduled independently. -/
def getEnabledJobs (st : Store) : List Job :=
  st.jobs.filter (fun j => j.status == JobStatus.enabled)

/-- `updateJob` (`src/db/queries.ts`): `UPDATE jobs SET ... WHERE id = ?`,
specialised to a field-rewriting function applied to every row with the
given id. -/
def updateJob (st : Store) (id : Nat) (f : Job → Job) : Store :=
  { st with jobs := st.jobs.map (fun j => if j.id == id then f j else j) }

/-- `createJobRun` (`src/db/queries.ts`):
`INSERT INTO job_runs (job_id) VALUES (?) RETURNING *` — a fresh row with
`status = 'running'` (the column default) and an autoincremented id,
modelled as one past the number of existing rows. -/
def createJobRun (st : Store) (jobId : Nat) : JobRun × Store :=
  let run : JobRun :=
    { id := st.runs.length + 1, job_id := jobId, status := RunStatus.running,
      result := none, error := none, cost_usd := none, duration_ms := none }
  (run, { st with runs := st.runs ++ [run] })

/-- `completeJobRun` (`src/db/queries.ts`): `UPDATE job_runs SET status = ?,
result = ?, error = ?, cost_usd = ?, duration_ms = ? ... WHERE id = ?`. -/
def completeJobRun (st : Store) (id : Nat) (status : RunStatus)
    (result : Option String) (error : Option String)
    (cost_usd : Option ℚ) (duration_ms : Option Nat) : Store :=
  { st with
    runs := st.runs.map (fun r =>
      if r.id == id then
        { r with status := status, result := result, error := error,
                 cost_usd := cost_usd, duration_ms := duration_ms }
      else r) }

/-- `AgentRunResult` (`src/shared/types.ts`): the value `AgentService.run`
returns and the executor consumes. -/
structure AgentRunResult where
  sessionId : String
  result : String
  costUsd : ℚ
  durationMs : Nat
  inputTokens : Nat
  outputTokens : Nat
  cacheReadTokens : Nat
  contextWindow : Nat
  numTurns : Nat
  stopReason : StopReason
deriving DecidableEq, Repr

/-- Outcome of one `agent.run(...)` call as seen by the executor: either a
returned result or a thrown error with its message. -/
inductive EngineOutcome where
  | ok (r : AgentRunResult)
  | thrown (msg : String)
deriving DecidableEq, Repr

namespace JobExecutor

/-- The body of `JobExecutor.execute` from the run-creation point on
(`src/scheduler/executor.ts` lines 187-253): create a `running` run,
invoke the agent, then either reclassify/complete it on return or mark it
as an error and fail the job on a thrown engine error.  `elapsed` stands
for `Date.now() - startTime` on the error path. -/
def execRun (st : Store) (job : Job) (engine : EngineOutcome)
    (now elapsed : Nat) : Store :=
  let (run, st1) := createJobRun st job.id
  match engine with
  | EngineOutcome.ok r =>
      let status : RunStatus :=
        if job.max_budget_usd ≤ r.costUsd then RunStatus.budget_exceeded
        else RunStatus.success
      let st2 := completeJobRun st1 run.id status (some r.result) none
        (some r.costUsd) (some r.durationMs)
      let st3 := updateJob st2 job.id (fun j => { j with last_run_at := some now })
      if job.type = JobType.once then
        updateJob st3 job.id (fun j => { j with status := JobStatus.completed })
      else st3
  | EngineOutcome.thrown msg =>
      let st2 := completeJobRun st1 run.id RunStatus.error none (some msg)
        none (some elapsed)
      updateJob st2 job.id (fun j =>
        { j with last_run_at := some now, status := JobStatus.failed })

/-- `JobExecutor.execute(jobId, options?)` (`src/scheduler/executor.ts`):
fetch the job (absent → return), and unless `options?.manualTrigger`,
run the pause check (a still-future `paused_until` skips; a passed one is
cleared) and then the skip check (`skip_runs > 0` decrements and skips);
otherwise create a run and invoke the engine. -/
def execute (st : Store) (jobId : Nat) (manualTrigger : Bool)
    (engine : EngineOutcome) (now elapsed : Nat) : Store :=
  match getJob st jobId with
  | none => st
  | some job =>
    if manualTrigger then execRun st job engine now elapsed
    else
      match job.paused_until with
      | some t =>
          if now < t then st
          else
            let st1 := updateJob st jobId (fun j => { j with paused_until := none })
            if job.skip_runs > 0 then
              updateJob st1 jobId (fun j => { j with skip_runs := j.skip_runs - 1 })
            else execRun st1 job engine now elapsed
      | none =>
          if job.skip_runs > 0 then
            updateJob st jobId (fun j => { j with skip_runs := j.skip_runs - 1 })
          else execRun st job engine now elapsed

end JobExecutor

namespace Scheduler

/-- `Scheduler.trigger(jobId)` (`src/scheduler/index.ts` lines 35-40): it
calls `this.executor.execute(jobId)` with no options object, so
`options?.manualTrigger` is undefined and the executor takes the
non-manual path. -/
def trigger (st : Store) (jobId : Nat) (engine : EngineOutcome)
    (now elapsed : Nat) : Store :=
  JobExecutor.execute st jobId false engine now elapsed

/-- Behaviour of the external `croner` library at a fixed current time:
`valid s` is whether `new Cron(s, cb)` constructs without throwing, and
`next s now` is `cron.nextRun()` (none when the expression never fires
again). -/
structure CronEnv where
  valid : String → Bool
  next : String → Nat → Option Nat

/-- The scheduler's in-memory trigger arena: the `cronJobs` and `timers`
maps from job id to a cancellable handle (handles are modelled as tokens
from a counter), plus bookkeeping: which handles have been cancelled
(`cron.stop()` / `clearTimeout`) and which past-due one-off jobs were
fired immediately (fire-and-forget, so they do not touch the store
synchronously). -/
structure SchedState where
  cronJobs : List (Nat × Nat)
  timers : List (Nat × Nat)
  cancelled : List Nat
  nextHandle : Nat
  firedNow : List Nat
deriving DecidableEq, Repr

/-- `Scheduler.stopAll()` (`src/scheduler/index.ts` lines 116-126): stop
every cron trigger, clear both maps, cancel every timer. -/
def stopAll (s : SchedState) : SchedState :=
  { s with
    cronJobs := [], timers := [],
    cancelled := s.cancelled ++ s.cronJobs.map Prod.snd ++ s.timers.map Prod.snd }

/-- The store-side effect of `Scheduler.scheduleJob(job)`
(`src/scheduler/index.ts` lines 47-114): the `updateJob(job.id,
{ next_run_at })` writes.  A cron job with a valid expression persists
`cron.nextRun()` when it exists; a one-off job with a future `run_at`
persists that time; everything else (invalid cron expression, missing
schedule/run_at, past-due one-off) writes nothing. -/
def scheduleJobStore (env : CronEnv) (now : Nat) (st : Store) (job : Job) : Store :=
  if job.type = JobType.cron then
    match job.schedule with
    | some sch =>
        if env.valid sch then
          match env.next sch now with
          | some t => updateJob st job.id (fun j => { j with next_run_at := some t })
          | none => st
        else st
    | none => st
  else
    match job.run_at with
    | some t =>
        if t ≤ now then st
        else updateJob st job.id (fun j => { j with next_run_at := some t })
    | none => st

/-- The arena-side effect of `Scheduler.scheduleJob(job)`: registering a
recurring trigger for a valid cron job, arming a one-shot timer for a
future one-off job, or firing a past-due one-off job immediately. -/
def scheduleJobSched (env : CronEnv) (now : Nat) (s : SchedState) (job : Job) : SchedState :=
  if job.type = JobType.cron then
    match job.schedule with
    | some sch =>
        if env.valid sch then
          { s with cronJobs := s.cronJobs ++ [(job.id, s.nextHandle)],
                   nextHandle := s.nextHandle + 1 }
        else s
    | none => s
  else
    match job.run_at with
    | some t =>
        if t ≤ now then { s with firedNow := s.firedNow ++ [job.id] }
        else
          { s with timers := s.timers ++ [(job.id, s.nextHandle)],
                   nextHandle := s.nextHandle + 1 }
    | none => s

/-- `Scheduler.scheduleJob(job)`: its combined effect on the store and the
trigger arena (the two components of the source function touch disjoint
state). -/
def scheduleJob (env : CronEnv) (now : Nat) (acc : Store × SchedState)
    (job : Job) : Store × SchedState :=
  (scheduleJobStore env now acc.1 job, scheduleJobSched env now acc.2 job)

/-- `Scheduler.reload()` (`src/scheduler/index.ts` lines 23-33): stop all
existing triggers/timers, then schedule every enabled job from the
persisted state (the enabled set is read once, before rescheduling). -/
def reload (env : CronEnv) (now : Nat) (st : Store) (s : SchedState) :
    Store × SchedState :=
  (getEnabledJobs st).foldl (scheduleJob env now) (st, stopAll s)

end Scheduler

/-! ## Derived views of the scheduler used by the reload theorems

`nextRunWrite` is the `next_run_at` value `scheduleJob` persists for a job
(if any); `applyWritesJob`/`lastWrite`/`writesOf` replay those writes as a
function on rows; `cronArmKey`/`timerArmKey` are the job ids for which
`scheduleJob` installs a recurring trigger resp. a one-shot timer.  All are
definitionally tied to `scheduleJobStore`/`scheduleJobSched` by lemmas
below. -/

/-- Row update performed by `updateJob(job.id, { next_run_at })`. -/
def setNextRun (t : Nat) (j : Job) : Job := { j with next_run_at := some t }

/-- The `next_run_at` value `Scheduler.scheduleJob` persists for `j`, if
any. -/
def nextRunWrite (env : Scheduler.CronEnv) (now : Nat) (j : Job) : Option Nat :=
  if j.type = JobType.cron then
    match j.schedule with
    | some sch => if env.valid sch then env.next sch now else none
    | none => none
  else
    match j.run_at with
    | some t => if t ≤ now then none else some t
    | none => none

/-- The `(job id, next_run_at)` writes a reload performs, in order. -/
def writesOf (env : Scheduler.CronEnv) (now : Nat) (L : List Job) : List (Nat × Nat) :=
  L.filterMap (fun j => (nextRunWrite env now j).map (fun t => (j.id, t)))

/-- Replay a write list on a single row. -/
def applyWritesJob (ws : List (Nat × Nat)) (x : Job) : Job :=
  ws.foldl (fun y w => if y.id == w.1 then setNextRun w.2 y else y) x

/-- The last write in `ws` that targets id `i`. -/
def lastWrite (ws : List (Nat × Nat)) (i : Nat) : Option Nat :=
  ws.foldl (fun acc w => if w.1 == i then some w.2 else acc) none

/-- The fields of a job that `Scheduler.reload` reads (everything it uses
to decide what to schedule); `reload` writes none of them. -/
def schedFields (j : Job) : Nat × JobStatus × JobType × Option String × Option Nat :=
  (j.id, j.status, j.type, j.schedule, j.run_at)

/-- The job id under which `scheduleJob` registers a recurring cron
trigger, if it registers one. -/
def cronArmKey (env : Scheduler.CronEnv) (j : Job) : Option Nat :=
  if j.type = JobType.cron then
    match j.schedule with
    | some sch => if env.valid sch then some j.id else none
    | none => none
  else none

/-- The job id under which `scheduleJob` arms a one-shot timer, if it arms
one. -/
def timerArmKey (now : Nat) (j : Job) : Option Nat :=
  if j.type = JobType.cron then none
  else
    match j.run_at with
    | some t => if t ≤ now then none else some j.id
    | none => none

/-! ## Run Supervisor (`AgentService.run`, `src/agent/index.ts`)

The engine's `query()` is an oracle: the ordered stream it would deliver is
a list of messages.  The per-run stale timer is asynchronous; its callback
(which sets `stopReason = "stale_timeout"` and requests an interrupt) may
run between any two loop iterations, so a run trace is a list of
`LoopItem`s interleaving delivered messages with firings of that callback.
A thrown engine error during iteration is modelled by truncating the trace
at the throw point (`RunEnd.thrown`). -/

/-- One entry of `message.modelUsage` summed in the `result` case. -/
structure ModelUsage where
  inputTokens : Nat
  outputTokens : Nat
  cacheReadInputTokens : Nat
  contextWindow : Nat
deriving DecidableEq, Repr

/-- Content blocks of an assistant message; blocks other than `text` and
`tool_use` are ignored by the loop. -/
inductive SdkBlock where
  | text (s : String)
  | tool_use (id : String) (name : String)
  | otherBlock
deriving DecidableEq, Repr

/-- The SDK message union consumed by the event loop's `switch`.  `init`
is a `system` message with subtype `"init"`; `systemOther` any other
system message; `result` carries the fields the loop reads (its subtype is
kept as the raw string the SDK reports). -/
inductive SdkMessage where
  | init (session_id : String)
  | systemOther
  | assistant (content : List SdkBlock)
  | tool_progress (tool_use_id : String) (tool_name : String)
  | result (subtype : String) (resultField : Option String) (total_cost_usd : ℚ)
      (duration_ms : Nat) (num_turns : Nat) (modelUsage : List ModelUsage)
  | otherMessage
deriving DecidableEq, Repr

/-- One step of a run trace: a delivered stream message, or the stale-timer
callback firing. -/
inductive LoopItem where
  | msg (m : SdkMessage)
  | staleFire
deriving DecidableEq, Repr

/-- How the stream ends once the trace is exhausted (when the loop has not
already broken out): normal end of iteration, or a thrown engine error
with its message and the wall-clock time `Date.now()` at the catch. -/
inductive RunEnd where
  | streamEnd
  | thrown (msg : String) (nowErr : Nat)
deriving DecidableEq, Repr

/-- A row of `chat_messages` as written by `insertChatMessage`
(`src/db/queries.ts`). -/
structure ChatMsg where
  session_id : String
  role : String
  content : String
  source : String
  source_id : Option String
  cost_usd : Option ℚ
  duration_ms : Option Int
deriving DecidableEq, Repr

/-- `AgentRunOptions` (`src/shared/types.ts`) after the defaulting at the
top of `run()`: `maxBudgetUsd ?? config.DEFAULT_MAX_BUDGET_USD` and
`maxTurns ?? config.DEFAULT_MAX_TURNS` have already been applied.  The
callbacks (`onText`/`onToolUse`/`onComplete`) are pure observations and
are not modelled. -/
structure AgentRunOptions where
  prompt : String
  source : String
  sourceId : Option String
  sessionId : Option String
  maxTurns : Nat
  maxBudgetUsd : ℚ
deriving DecidableEq, Repr

/-- JS truthiness of `options.sessionId` (`undefined` and `""` are both
falsy). -/
def optTruthy : Option String → Bool
  | some s => s != ""
  | none => false

/-- The local mutable state of one `AgentService.run` invocation, plus
model bookkeeping: `inserted` records every `insertChatMessage` call in
order, `sessionUpserts` every `upsertSession` call, `dispatched` counts
messages that reached the `switch`, `initCount` counts dispatched
session-init messages, `interrupted` records whether
`agentQuery.interrupt()` was requested, and `broke` whether the loop was
exited by the message-ceiling `break`. -/
structure RunState where
  sessionId : String
  resultText : String
  totalCost : ℚ
  durationMs : Nat
  inputTokens : Nat
  outputTokens : Nat
  cacheReadTokens : Nat
  contextWindow : Nat
  numTurns : Nat
  stopReason : StopReason
  toolCache : List (String × String)
  messageCount : Nat
  inserted : List ChatMsg
  sessionUpserts : List (String × ℚ)
  dispatched : Nat
  initCount : Nat
  interrupted : Bool
  broke : Bool
deriving DecidableEq, Repr

/-- The user-message row inserted for this run. -/
def userMsg (opts : AgentRunOptions) (sid : String) : ChatMsg :=
  { session_id := sid, role := "user", content := opts.prompt,
    source := opts.source, source_id := opts.sourceId,
    cost_usd := none, duration_ms := none }

/-- State at the top of the `try` block: locals initialised, and the user
message stored up front when a truthy prior session id was supplied
(`if (sessionId) insertChatMessage(...)`). -/
def initState (opts : AgentRunOptions) : RunState :=
  let sid := opts.sessionId.getD ""
  { sessionId := sid, resultText := "", totalCost := 0, durationMs := 0,
    inputTokens := 0, outputTokens := 0, cacheReadTokens := 0,
    contextWindow := 0, numTurns := 0, stopReason := StopReason.unknown,
    toolCache := [], messageCount := 0,
    inserted := if sid != "" then [userMsg opts sid] else [],
    sessionUpserts := [], dispatched := 0, initCount := 0,
    interrupted := false, broke := false }

/-- `toolCache.set(id, {name, ...})`: overwrite an existing entry or add a
new one. -/
def toolCacheSet (c : List (String × String)) (id name : String) :
    List (String × String) :=
  if (c.find? (fun p => p.1 == id)).isSome then
    c.map (fun p => if p.1 == id then (id, name) else p)
  else c ++ [(id, name)]

/-- The `switch (message.subtype)` chain of the `result` case: map the
SDK's reported subtype to a `StopReason` (anything unrecognised falls
through to `end_turn`). -/
def classifyResultSubtype (subtype : String) : StopReason :=
  if subtype = "end_turn" then StopReason.end_turn
  else if subtype = "max_turns" then StopReason.max_turns
  else if subtype = "budget_exceeded" then StopReason.budget_exceeded
  else if subtype = "interrupted" then StopReason.interrupted
  else StopReason.end_turn

/-- The inner `for (const block of content)` loop of the `assistant` case:
`text` blocks only invoke the text callback; `tool_use` blocks are stored
in the seen-set (and invoke the tool callback with `subagent = false`). -/
def applyBlock (s : RunState) (b : SdkBlock) : RunState :=
  match b with
  | SdkBlock.text _ => s
  | SdkBlock.tool_use id name =>
      { s with toolCache := toolCacheSet s.toolCache id name }
  | SdkBlock.otherBlock => s

/-- The `for (const usage of Object.values(message.modelUsage))`
accumulation of the `result` case. -/
def accumUsage (s : RunState) (u : ModelUsage) : RunState :=
  { s with inputTokens := s.inputTokens + u.inputTokens,
           outputTokens := s.outputTokens + u.outputTokens,
           cacheReadTokens := s.cacheReadTokens + u.cacheReadInputTokens,
           contextWindow :=
             if u.contextWindow > s.contextWindow then u.contextWindow
             else s.contextWindow }

/-- The `switch (message.type)` body of the event loop
(`src/agent/index.ts` lines 139-223), for one dispatched message. -/
def processMsg (opts : AgentRunOptions) (st : RunState) (m : SdkMessage) : RunState :=
  match m with
  | SdkMessage.init sid =>
      let st1 := { st with sessionId := sid, initCount := st.initCount + 1 }
      if optTruthy opts.sessionId then st1
      else { st1 with inserted := st1.inserted ++ [userMsg opts sid] }
  | SdkMessage.systemOther => st
  | SdkMessage.assistant blocks => blocks.foldl applyBlock st
  | SdkMessage.tool_progress id name =>
      if (st.toolCache.find? (fun p => p.1 == id)).isSome then st
      else { st with toolCache := st.toolCache ++ [(id, name)] }
  | SdkMessage.result subtype resultField cost dur turns usage =>
      usage.foldl accumUsage
        { st with
          resultText := resultField.getD "",
          totalCost := cost, durationMs := dur, numTurns := turns,
          stopReason :=
            if st.stopReason = StopReason.unknown then classifyResultSubtype subtype
            else st.stopReason }
  | SdkMessage.otherMessage => st

/-- One iteration boundary of the `for await` loop: after a `break` the
loop consumes nothing further; the stale-timer callback sets
`stopReason = "stale_timeout"` and requests an interrupt; a delivered
message first bumps `messageCount` and, past the `MAX_LOOP_MESSAGES`
ceiling, sets `stopReason = "message_limit"`, interrupts and breaks
before the `switch`, otherwise it is dispatched. -/
def stepItem (opts : AgentRunOptions) (maxLoop : Nat) (st : RunState)
    (it : LoopItem) : RunState :=
  if st.broke then st
  else
    match it with
    | LoopItem.staleFire =>
        { st with stopReason := StopReason.stale_timeout, interrupted := true }
    | LoopItem.msg m =>
        let st1 := { st with messageCount := st.messageCount + 1 }
        if st1.messageCount > maxLoop then
          { st1 with stopReason := StopReason.message_limit,
                     interrupted := true, broke := true }
        else processMsg opts { st1 with dispatched := st1.dispatched + 1 } m

/-- The fixed fallback strings of the `reasons` table (the interpolated
turn/budget numbers of the source strings are elided; only
emptiness/identity of the strings matters to the theorems). -/
def stopReasonFallback : StopReason → String
  | StopReason.max_turns =>
      "Agent reached the turn limit before completing a response."
  | StopReason.budget_exceeded =>
      "Agent reached the budget limit before completing a response."
  | StopReason.interrupted =>
      "Agent was interrupted before completing a response."
  | StopReason.stale_timeout =>
      "Agent became unresponsive (no activity for 5 minutes) and was stopped."
  | StopReason.message_limit =>
      "Agent exceeded the message processing limit and was stopped."
  | StopReason.error =>
      "Agent encountered an error before completing a response."
  | StopReason.end_turn => ""
  | StopReason.unknown => "Agent stopped without producing a response."

/-- `reasons[stopReason] || reasons.unknown`. -/
def fallbackFor (r : StopReason) : String :=
  let t := stopReasonFallback r
  if t = "" then stopReasonFallback StopReason.unknown else t

/-- The code after the loop on the non-throwing path (also reached after a
ceiling `break`): synthesize fallback text for a blank result with a
non-`end_turn` stop reason, store the assistant message, upsert the
session record, and build the returned result. -/
def finishNormal (opts : AgentRunOptions) (st : RunState) :
    RunState × AgentRunResult :=
  let text :=
    if st.resultText.trim = "" ∧ st.stopReason ≠ StopReason.end_turn then
      fallbackFor st.stopReason
    else st.resultText
  let amsg : ChatMsg :=
    { session_id := st.sessionId, role := "assistant", content := text,
      source := opts.source, source_id := opts.sourceId,
      cost_usd := some st.totalCost, duration_ms := some (st.durationMs : Int) }
  let st1 :=
    { st with
      resultText := text,
      inserted := st.inserted ++ [amsg],
      sessionUpserts := st.sessionUpserts ++ [(st.sessionId, st.totalCost)] }
  (st1,
   { sessionId := st1.sessionId, result := text, costUsd := st.totalCost,
     durationMs := st.durationMs, inputTokens := st.inputTokens,
     outputTokens := st.outputTokens, cacheReadTokens := st.cacheReadTokens,
     contextWindow := st.contextWindow, numTurns := st.numTurns,
     stopReason := st.stopReason })

/-- The `catch` block: when a session id is known, store a synthesized
assistant fallback (`"Agent encountered an error: " + message`); then the
error is rethrown. -/
def finishError (opts : AgentRunOptions) (st : RunState) (msg : String)
    (nowErr : Nat) : RunState :=
  if st.sessionId != "" then
    { st with inserted := st.inserted ++
        [{ session_id := st.sessionId, role := "assistant",
           content := "Agent encountered an error: " ++ msg,
           source := opts.source, source_id := opts.sourceId,
           cost_usd := some st.totalCost,
           duration_ms := some ((nowErr : Int) -
             (if st.durationMs = 0 then (nowErr : Int) else (st.durationMs : Int))) }] }
  else st

/-- Result of one settled `AgentService.run` invocation: the final local
state, the returned value (`none` when the engine error was rethrown),
the `activeQueries` registry after the `finally` block, and whether the
stale timer is still pending after the `finally` block. -/
structure RunOutcome where
  final : RunState
  returned : Option AgentRunResult
  registry : List String
  staleTimerPending : Bool
deriving DecidableEq, Repr

namespace AgentService

/-- `AgentService.run(options)` (`src/agent/index.ts` lines 41-301), as a
function of the run trace.  `reg0` is the `activeQueries` registry before
the call and `runId` the fresh run id; the registry gains `runId` before
the loop and the `finally` block deletes it and clears the stale timer on
every path.  If the loop broke at the message ceiling the non-throwing
post-loop path runs; otherwise `ending` decides between the normal path
and the `catch` path. -/
def run (opts : AgentRunOptions) (items : List LoopItem) (ending : RunEnd)
    (reg0 : List String) (runId : String) : RunOutcome :=
  let maxLoop := opts.maxTurns * 5
  let regDuring := reg0 ++ [runId]
  let st := items.foldl (stepItem opts maxLoop) (initState opts)
  let fin :=
    if st.broke then
      let p := finishNormal opts st
      (p.1, some p.2)
    else
      match ending with
      | RunEnd.streamEnd =>
          let p := finishNormal opts st
          (p.1, some p.2)
      | RunEnd.thrown msg nowErr => (finishError opts st msg nowErr, none)
  { final := fin.1, returned := fin.2,
    registry := regDuring.filter (fun x => x != runId),
    staleTimerPending := false }

/-- `AgentService.interrupt(runId)` (`src/agent/index.ts` lines 303-309):
look up the handle; when present, `await q.interrupt()` and only then
delete the registry entry.  `cancelThrows` is whether the awaited
cancellation rejects; the returned flag is whether the error propagated
to the caller (in which case the `delete` was never reached). -/
def interrupt (registry : List String) (runId : String) (cancelThrows : Bool) :
    List String × Bool :=
  match registry.find? (fun x => x == runId) with
  | some _ =>
      if cancelThrows then (registry, true)
      else (registry.filter (fun x => x != runId), false)
  | none => (registry, false)

end AgentService

/-! ## Telegram message splitting (`splitMessage`, `src/telegram/format.ts`)

Strings are modelled as `List Char` (the source operates on UTF-16 code
units; only lengths, indexing and whitespace identity matter here). -/

/-- `MAX_MESSAGE_LENGTH` (`src/telegram/format.ts` line 1). -/
def MAX_MESSAGE_LENGTH : Nat := 4096

/-- `String.prototype.lastIndexOf(ch, fromIndex)`: the largest index
`≤ fromIndex` holding `ch` (`none` for JS's `-1`). -/
def lastIndexOf (s : List Char) (c : Char) (fromIndex : Nat) : Option Nat :=
  (((s.take (fromIndex + 1)).enum.filter (fun p => p.2 == c)).map Prod.fst).getLast?

/-- The whitespace class stripped by `String.prototype.trimStart` (the
ASCII part; the source never produces the exotic Unicode spaces). -/
def jsWhitespace (c : Char) : Bool :=
  c == ' ' || c == '\n' || c == '\t' || c == '\r' || c == '\x0b' || c == '\x0c'

/-- `remaining.slice(splitAt).trimStart()`'s `trimStart`. -/
def trimStart (s : List Char) : List Char := s.dropWhile jsWhitespace

/-- The split-point selection of one `while` iteration
(`src/telegram/format.ts` lines 23-31): prefer the last newline at index
`≤ MAX_MESSAGE_LENGTH` if it sits in the upper half of the window, else
the last space under the same constraint, else a hard cut at exactly
`MAX_MESSAGE_LENGTH`. -/
def chooseSplit (remaining : List Char) : Nat :=
  let nl := lastIndexOf remaining '\n' MAX_MESSAGE_LENGTH
  let sp :=
    match nl with
    | some i =>
        if i < MAX_MESSAGE_LENGTH / 2 then lastIndexOf remaining ' ' MAX_MESSAGE_LENGTH
        else some i
    | none => lastIndexOf remaining ' ' MAX_MESSAGE_LENGTH
  match sp with
  | some i => if i < MAX_MESSAGE_LENGTH / 2 then MAX_MESSAGE_LENGTH else i
  | none => MAX_MESSAGE_LENGTH

/-- The `while (remaining.length > 0)` loop of `splitMessage`
(`src/telegram/format.ts` lines 17-35). -/
def splitLoop (remaining : List Char) : List (List Char) :=
  if remaining.length = 0 then []
  else if remaining.length ≤ MAX_MESSAGE_LENGTH then [remaining]
  else
    remaining.take (chooseSplit remaining) ::
      splitLoop (trimStart (remaining.drop (chooseSplit remaining)))
termination_by remaining.length
decreasing_by
  have hk : MAX_MESSAGE_LENGTH / 2 ≤ chooseSplit remaining := by
    unfold chooseSplit
    cases lastIndexOf remaining '\n' MAX_MESSAGE_LENGTH with
    | none =>
        cases lastIndexOf remaining ' ' MAX_MESSAGE_LENGTH with
        | none => simp [MAX_MESSAGE_LENGTH]
        | some i =>
            by_cases h : i < MAX_MESSAGE_LENGTH / 2 <;> simp [h] <;> omega
    | some i =>
        by_cases h : i < MAX_MESSAGE_LENGTH / 2
        · simp only [h, if_true]
          cases lastIndexOf remaining ' ' MAX_MESSAGE_LENGTH with
          | none => simp [MAX_MESSAGE_LENGTH]
          | some i' =>
              by_cases h' : i' < MAX_MESSAGE_LENGTH / 2 <;> simp [h'] <;> omega
        · simp only [h, if_false, h, if_neg h]
          omega
  have hd : (trimStart (remaining.drop (chooseSplit remaining))).length ≤
      (remaining.drop (chooseSplit remaining)).length :=
    (List.dropWhile_suffix _).length_le
  have hl : (remaining.drop (chooseSplit remaining)).length =
      remaining.length - chooseSplit remaining := List.length_drop _ _
  simp only [MAX_MESSAGE_LENGTH] at *
  omega

/-- `splitMessage(text)` (`src/telegram/format.ts` lines 9-38). -/
def splitMessage (text : List Char) : List (List Char) :=
  if text.length ≤ MAX_MESSAGE_LENGTH then [text] else splitLoop text

/-- The number of delivered stream messages in a trace (stale-timer
firings are not loop iterations and do not count). -/
def countMsgs : List LoopItem → Nat
  | [] => 0
  | LoopItem.msg _ :: t => countMsgs t + 1
  | LoopItem.staleFire :: t => countMsgs t

/-- The number of session-init messages in a trace. -/
def countInits : List LoopItem → Nat
  | [] => 0
  | LoopItem.msg (SdkMessage.init _) :: t => countInits t + 1
  | _ :: t => countInits t

/-- Whether every session-init message in the trace carries a nonempty
session id (the SDK always reports one). -/
def initSidsOk : List LoopItem → Bool
  | [] => true
  | LoopItem.msg (SdkMessage.init sid) :: t => (sid != "") && initSidsOk t
  | _ :: t => initSidsOk t

/-- Number of persisted user-message rows. -/
def userCount (msgs : List ChatMsg) : Nat :=
  (msgs.filter (fun m => m.role == "user")).length

/-- Number of persisted assistant-message rows. -/
def assistantCount (msgs : List ChatMsg) : Nat :=
  (msgs.filter (fun m => m.role == "assistant")).length

/-! ## Concrete sample inputs used by witnesses and counterexamples -/

/-- A representative enabled cron job with no pause state. -/
def baseJob : Job :=
  { id := 1, name := "sample", prompt := "do the thing", type := JobType.cron,
    schedule := some "0 * * * *", run_at := none, max_budget_usd := 1,
    allowed_tools := none, use_browser := false, model := none,
    paused_until := none, skip_runs := 0, status := JobStatus.enabled,
    last_run_at := none, next_run_at := none }

/-- An engine run that finished cleanly (`stopReason = end_turn`) but cost
$2 — more than `baseJob`'s $1 budget. -/
def costlyResult : AgentRunResult :=
  { sessionId := "sess", result := "done", costUsd := 2, durationMs := 42,
    inputTokens := 10, outputTokens := 5, cacheReadTokens := 0,
    contextWindow := 1000, numTurns := 3, stopReason := StopReason.end_turn }

/-- The same engine outcome as seen by the executor. -/
def engineCleanFinish : EngineOutcome := EngineOutcome.ok costlyResult

/-- A store holding one job paused until t = 2000. -/
def pausedStore : Store :=
  { jobs := [{ baseJob with paused_until := some 2000 }], runs := [] }

/-- A store holding one job with `skip_runs = 1` (id 2). -/
def skipStore : Store :=
  { jobs := [{ baseJob with id := 2, skip_runs := 1 }], runs := [] }

/-- A store holding one job with `skip_runs = 2`. -/
def skipStore2 : Store :=
  { jobs := [{ baseJob with skip_runs := 2 }], runs := [] }

/-- A store holding `baseJob` with no pause state. -/
def cleanStore : Store := { jobs := [baseJob], runs := [] }

/-- A 5101-character text whose only line break sits at index 100 — below
the upper half of the 4096-character split window — with no spaces at
all. -/
def hardT : List Char := List.replicate 100 'a' ++ '\n' :: List.replicate 5000 'b'

/-- A croner environment in which every expression is valid and next fires
at t = 5000. -/
def envAll : Scheduler.CronEnv :=
  { valid := fun _ => true, next := fun _ _ => some 5000 }

/-- A scheduler with no armed triggers. -/
def emptySched : Scheduler.SchedState :=
  { cronJobs := [], timers := [], cancelled := [], nextHandle := 0, firedNow := [] }

/-- Representative run-supervisor options with no prior session id. -/
def sampleOpts : AgentRunOptions :=
  { prompt := "hello", source := "telegram", sourceId := some "42",
    sessionId := none, maxTurns := 1, maxBudgetUsd := 1 }

/-- The same options with a prior session id supplied. -/
def sampleOptsWithSession : AgentRunOptions :=
  { sampleOpts with sessionId := some "sess0" }

end Psibot

namespace Psibot

/-! # Theorems -/

/-- `List.map` is the identity when `f` fixes every element. -/
theorem list_map_eq_self {α : Type} (l : List α) (f : α → α)
    (h : ∀ x ∈ l, f x = x) : l.map f = l := by
  induction l with
  | nil => rfl
  | cons a t ih =>
      simp only [List.map_cons, h a (List.mem_cons_self a t)]
      rw [ih (fun x hx => h x (List.mem_cons_of_mem a hx))]

/-- An automatic firing of a job that is neither paused nor skipping goes
straight to the run-creating path. -/
theorem execute_auto_clean (st : Store) (jobId : Nat) (job : Job)
    (engine : EngineOutcome) (now elapsed : Nat)
    (hj : getJob st jobId = some job)
    (hp : job.paused_until = none) (hs : job.skip_runs = 0) :
    JobExecutor.execute st jobId false engine now elapsed =
      JobExecutor.execRun st job engine now elapsed := by
  unfold JobExecutor.execute
  rw [hj]
  simp only [Bool.false_eq_true, if_false, hp, hs, gt_iff_lt,
    lt_self_iff_false]

/-- The run-creating path on a returned engine result appends exactly one
completed run, classified by the post-hoc budget comparison. -/
theorem execRun_ok_runs (st : Store) (job : Job) (r : AgentRunResult)
    (now elapsed : Nat)
    (hfresh : ∀ rr ∈ st.runs, rr.id ≠ st.runs.length + 1) :
    (JobExecutor.execRun st job (EngineOutcome.ok r) now elapsed).runs =
      st.runs ++
        [{ id := st.runs.length + 1, job_id := job.id,
           status := if job.max_budget_usd ≤ r.costUsd then RunStatus.budget_exceeded
                     else RunStatus.success,
           result := some r.result, error := none,
           cost_usd := some r.costUsd, duration_ms := some r.durationMs }] := by
  unfold JobExecutor.execRun createJobRun completeJobRun updateJob
  simp only [apply_ite Store.runs, ite_self, List.map_append, List.map_cons,
    List.map_nil, beq_self_eq_true, if_true]
  congr 1
  exact list_map_eq_self _ _ (fun rr hrr => by
    have h := hfresh rr hrr
    simp [h])

/-- Looking a job up after an id-preserving row update sees the updated
row. -/
theorem getJob_updateJob (st : Store) (id : Nat) (f : Job → Job)
    (hf : ∀ j, (f j).id = j.id) :
    getJob (updateJob st id f) id = (getJob st id).map f := by
  simp only [getJob, updateJob]
  induction st.jobs with
  | nil => rfl
  | cons a t ih =>
      by_cases ha : (a.id == id) = true
      · simp only [List.map_cons, ha, if_true, List.find?_cons]
        have : ((f a).id == id) = true := by
          rw [hf a]; exact ha
        simp [this, ha]
      · simp only [Bool.not_eq_true] at ha
        simp only [List.map_cons, ha, Bool.false_eq_true, if_false]
        rw [List.find?_cons_of_neg _ (by simp [ha]),
            List.find?_cons_of_neg _ (by simp [ha])]
        exact ih

/-- An automatic firing of an unpaused job with `skip_runs > 0` only
decrements the counter. -/
theorem execute_skip_step (st : Store) (jobId : Nat) (job : Job)
    (engine : EngineOutcome) (now elapsed : Nat)
    (hj : getJob st jobId = some job) (hp : job.paused_until = none)
    (hpos : 0 < job.skip_runs) :
    JobExecutor.execute st jobId false engine now elapsed =
      updateJob st jobId (fun j => { j with skip_runs := j.skip_runs - 1 }) := by
  unfold JobExecutor.execute
  rw [hj]
  simp [hp, hpos]

/-- The run-creating path appends exactly one run, whatever the engine
does. -/
theorem execRun_runs_length (st : Store) (job : Job) (engine : EngineOutcome)
    (now elapsed : Nat) :
    (JobExecutor.execRun st job engine now elapsed).runs.length =
      st.runs.length + 1 := by
  unfold JobExecutor.execRun createJobRun completeJobRun updateJob
  cases engine <;>
    simp [apply_ite Store.runs, ite_self]

/-- **C1.** The claim states that a manual trigger via
`Scheduler.trigger(jobId)` bypasses the pause and skip checks and still
executes the job.  The code contradicts this: `Scheduler.trigger` calls
`executor.execute(jobId)` without `{ manualTrigger: true }` (no caller in
the repository ever passes that option), so the pause and skip checks
apply.  Evaluated at the failing inputs: triggering a job paused until
t = 2000 at t = 1000 leaves the store untouched (no `Run` row), and
triggering a job with `skip_runs = 1` creates no run and consumes the
skip counter; by contrast `JobExecutor.execute` with
`manualTrigger = true` — the behaviour the claim (and the `job_trigger`
tool description) promises — does create a run. -/
theorem c1_scheduler_trigger_applies_pause_and_skip_checks :
    Scheduler.trigger pausedStore 1 engineCleanFinish 1000 7 = pausedStore ∧
    (Scheduler.trigger skipStore 2 engineCleanFinish 1000 7).runs = [] ∧
    (getJob (Scheduler.trigger skipStore 2 engineCleanFinish 1000 7) 2).map
      Job.skip_runs = some 0 ∧
    (JobExecutor.execute pausedStore 1 true engineCleanFinish 1000 7).runs.length = 1 := by
  decide

/-- **C2.** For every scheduled (non-manual) firing whose pause/skip checks
pass and whose engine call returns, the executor appends exactly one
completed `Run`; its status is `budget_exceeded` whenever the reported
`costUsd` is at least the job's `max_budget_usd` — regardless of the
engine's own stop reason, which the executor never consults — and
`success` when the cost is strictly below the budget. -/
theorem c2_budget_exceeded_post_hoc (st : Store) (jobId : Nat) (job : Job)
    (r : AgentRunResult) (now elapsed : Nat)
    (hj : getJob st jobId = some job)
    (hp : job.paused_until = none) (hs : job.skip_runs = 0)
    (hfresh : ∀ rr ∈ st.runs, rr.id ≠ st.runs.length + 1) :
    (JobExecutor.execute st jobId false (EngineOutcome.ok r) now elapsed).runs =
      st.runs ++
        [{ id := st.runs.length + 1, job_id := job.id,
           status := if job.max_budget_usd ≤ r.costUsd then RunStatus.budget_exceeded
                     else RunStatus.success,
           result := some r.result, error := none,
           cost_usd := some r.costUsd, duration_ms := some r.durationMs }] := by
  rw [execute_auto_clean st jobId job _ now elapsed hj hp hs,
      execRun_ok_runs st job r now elapsed hfresh]

/-- Witness for **C2**: a $1-budget job whose engine run reports a clean
`end_turn` finish at cost $2 is persisted as `budget_exceeded`. -/
theorem c2_budget_exceeded_post_hoc_witness :
    (JobExecutor.execute cleanStore 1 false (EngineOutcome.ok costlyResult) 1000 7).runs =
      [{ id := 1, job_id := 1, status := RunStatus.budget_exceeded,
         result := some "done", error := none, cost_usd := some 2,
         duration_ms := some 42 }] := by
  have h := c2_budget_exceeded_post_hoc cleanStore 1 baseJob costlyResult 1000 7
    (by decide) (by decide) (by decide) (by decide)
  rw [h]
  decide

/-- **C7.** For an enabled, unpaused job with `skip_runs = N > 0`, each of
the next `N` automatic firings creates no `Run` and decrements the
counter by exactly one (after `k ≤ N` firings the store's runs are
untouched and the counter reads `N - k`), and the `(N+1)`-th automatic
firing creates a `Run`. -/
theorem c7_skip_runs_invariant (st : Store) (jobId : Nat) (job : Job) (N : Nat)
    (engine : EngineOutcome) (now elapsed : Nat)
    (hj : getJob st jobId = some job)
    (hp : job.paused_until = none) (hs : job.skip_runs = N) (hN : 0 < N) :
    (∀ k, k ≤ N →
      ((fun s => JobExecutor.execute s jobId false engine now elapsed)^[k] st).runs = st.runs ∧
      getJob ((fun s => JobExecutor.execute s jobId false engine now elapsed)^[k] st) jobId =
        some { job with skip_runs := N - k }) ∧
    ((fun s => JobExecutor.execute s jobId false engine now elapsed)^[N + 1] st).runs.length =
      st.runs.length + 1 := by
  have main : ∀ k, k ≤ N →
      ((fun s => JobExecutor.execute s jobId false engine now elapsed)^[k] st).runs = st.runs ∧
      getJob ((fun s => JobExecutor.execute s jobId false engine now elapsed)^[k] st) jobId =
        some { job with skip_runs := N - k } := by
    intro k
    induction k with
    | zero =>
        intro _
        refine ⟨by simp, ?_⟩
        have hjob : ({ job with skip_runs := N - 0 } : Job) = job := by
          rw [Nat.sub_zero, ← hs]
        rw [hjob]
        simpa using hj
    | succ k ih =>
        intro hk1
        obtain ⟨hr, hg⟩ := ih (Nat.le_of_succ_le hk1)
        have hpos : 0 < ({ job with skip_runs := N - k } : Job).skip_runs := by
          show 0 < N - k
          omega
        have hstep := execute_skip_step
          ((fun s => JobExecutor.execute s jobId false engine now elapsed)^[k] st) jobId
          { job with skip_runs := N - k } engine now elapsed hg (by simpa using hp) hpos
        rw [Function.iterate_succ_apply']
        constructor
        · show (JobExecutor.execute _ jobId false engine now elapsed).runs = st.runs
          rw [hstep]
          exact hr
        · show getJob (JobExecutor.execute _ jobId false engine now elapsed) jobId = _
          rw [hstep, getJob_updateJob _ jobId
            (fun j => { j with skip_runs := j.skip_runs - 1 }) (fun j => rfl), hg]
          have : N - k - 1 = N - (k + 1) := by omega
          simp [this]
  refine ⟨main, ?_⟩
  obtain ⟨hrN, hgN⟩ := main N le_rfl
  have hclean := execute_auto_clean
    ((fun s => JobExecutor.execute s jobId false engine now elapsed)^[N] st) jobId
    { job with skip_runs := N - N } engine now elapsed hgN (by simpa using hp)
    (by show N - N = 0; omega)
  rw [Function.iterate_succ_apply']
  show (JobExecutor.execute _ jobId false engine now elapsed).runs.length = _
  rw [hclean, execRun_runs_length, hrN]

/-- Witness for **C7**: with `skip_runs = 2`, two automatic firings create
no runs and leave the counter at 0, and the third creates one run. -/
theorem c7_skip_runs_invariant_witness :
    ((fun s => JobExecutor.execute s 1 false engineCleanFinish 1000 7)^[2] skipStore2).runs = [] ∧
    (getJob ((fun s => JobExecutor.execute s 1 false engineCleanFinish 1000 7)^[2] skipStore2) 1).map
      Job.skip_runs = some 0 ∧
    ((fun s => JobExecutor.execute s 1 false engineCleanFinish 1000 7)^[3] skipStore2).runs.length = 1 := by
  have h := c7_skip_runs_invariant skipStore2 1 { baseJob with skip_runs := 2 } 2
    engineCleanFinish 1000 7 (by decide) (by decide) (by decide) (by decide)
  obtain ⟨hmain, hlen⟩ := h
  obtain ⟨hr2, hg2⟩ := hmain 2 le_rfl
  refine ⟨by simpa using hr2, ?_, by simpa using hlen⟩
  rw [hg2]
  decide

/-- The assistant-blocks loop touches only the tool seen-set. -/
theorem applyBlock_fold_eq (blocks : List SdkBlock) : ∀ s : RunState,
    blocks.foldl applyBlock s =
      { s with toolCache := (blocks.foldl applyBlock s).toolCache } := by
  induction blocks with
  | nil => intro s; rfl
  | cons b t ih =>
      intro s
      rw [List.foldl_cons, ih (applyBlock s b)]
      cases b <;> rfl

/-- The usage accumulation touches only the token counters. -/
theorem accumUsage_fold_eq (usage : List ModelUsage) : ∀ s : RunState,
    usage.foldl accumUsage s =
      { s with
        inputTokens := (usage.foldl accumUsage s).inputTokens,
        outputTokens := (usage.foldl accumUsage s).outputTokens,
        cacheReadTokens := (usage.foldl accumUsage s).cacheReadTokens,
        contextWindow := (usage.foldl accumUsage s).contextWindow } := by
  induction usage with
  | nil => intro s; rfl
  | cons u t ih =>
      intro s
      rw [List.foldl_cons, ih (accumUsage s u)]
      rfl

/-- Dispatching a message never changes the loop bookkeeping counters. -/
theorem processMsg_book (opts : AgentRunOptions) (st : RunState) (m : SdkMessage) :
    (processMsg opts st m).messageCount = st.messageCount ∧
    (processMsg opts st m).dispatched = st.dispatched ∧
    (processMsg opts st m).broke = st.broke ∧
    (processMsg opts st m).interrupted = st.interrupted := by
  cases m with
  | init sid =>
      by_cases h : optTruthy opts.sessionId <;> simp [processMsg, h]
  | systemOther => exact ⟨rfl, rfl, rfl, rfl⟩
  | assistant blocks =>
      simp only [processMsg]
      rw [applyBlock_fold_eq blocks st]
      exact ⟨rfl, rfl, rfl, rfl⟩
  | tool_progress id name =>
      by_cases h : (st.toolCache.find? (fun p => p.1 == id)).isSome <;>
        simp [processMsg, h]
  | result subtype resultField cost dur turns usage =>
      simp only [processMsg]
      rw [accumUsage_fold_eq usage]
      exact ⟨rfl, rfl, rfl, rfl⟩
  | otherMessage => exact ⟨rfl, rfl, rfl, rfl⟩

/-- After the ceiling `break`, the rest of the trace is never consumed. -/
theorem foldl_stepItem_of_broke (opts : AgentRunOptions) (maxLoop : Nat) :
    ∀ (items : List LoopItem) (st : RunState), st.broke = true →
      items.foldl (stepItem opts maxLoop) st = st := by
  intro items
  induction items with
  | nil => intro st _; rfl
  | cons it t ih =>
      intro st h
      rw [List.foldl_cons]
      have : stepItem opts maxLoop st it = st := by
        simp [stepItem, h]
      rw [this]
      exact ih st h

/-- The event loop, started below the ceiling on a trace whose delivered
messages overflow it, breaks with `message_limit`, requests an interrupt,
and dispatches exactly `maxLoop` messages. -/
theorem loop_ceiling (opts : AgentRunOptions) (maxLoop : Nat) :
    ∀ (items : List LoopItem) (st : RunState),
      st.broke = false →
      st.dispatched = st.messageCount →
      st.messageCount ≤ maxLoop →
      maxLoop < st.messageCount + countMsgs items →
      (items.foldl (stepItem opts maxLoop) st).broke = true ∧
      (items.foldl (stepItem opts maxLoop) st).stopReason = StopReason.message_limit ∧
      (items.foldl (stepItem opts maxLoop) st).interrupted = true ∧
      (items.foldl (stepItem opts maxLoop) st).dispatched = maxLoop := by
  intro items
  induction items with
  | nil =>
      intro st hb hd hle hcount
      simp only [countMsgs] at hcount
      omega
  | cons it t ih =>
      intro st hb hd hle hcount
      rw [List.foldl_cons]
      cases it with
      | staleFire =>
          have hstep : stepItem opts maxLoop st LoopItem.staleFire =
              { st with stopReason := StopReason.stale_timeout, interrupted := true } := by
            simp [stepItem, hb]
          rw [hstep]
          exact ih _ hb hd hle (by simpa [countMsgs] using hcount)
      | msg m =>
          by_cases hover : st.messageCount + 1 > maxLoop
          · have hstep : stepItem opts maxLoop st (LoopItem.msg m) =
                { st with messageCount := st.messageCount + 1,
                          stopReason := StopReason.message_limit,
                          interrupted := true, broke := true } := by
              simp [stepItem, hb, hover]
            rw [hstep, foldl_stepItem_of_broke opts maxLoop t _ rfl]
            refine ⟨rfl, rfl, rfl, ?_⟩
            show st.dispatched = maxLoop
            omega
          · have hstep : stepItem opts maxLoop st (LoopItem.msg m) =
                processMsg opts { st with messageCount := st.messageCount + 1,
                                          dispatched := st.dispatched + 1 } m := by
              simp [stepItem, hb, hover]
            rw [hstep]
            obtain ⟨h1, h2, h3, _⟩ := processMsg_book opts
              { st with messageCount := st.messageCount + 1, dispatched := st.dispatched + 1 } m
            refine ih _ (by rw [h3]; exact hb) ?_ ?_ ?_
            · rw [h2, h1]
              show st.dispatched + 1 = st.messageCount + 1
              omega
            · rw [h1]
              show st.messageCount + 1 ≤ maxLoop
              omega
            · rw [h1]
              show maxLoop < st.messageCount + 1 + countMsgs t
              simp only [countMsgs] at hcount
              omega

/-- **C5.** Once the delivered stream messages outnumber
`maxTurns × 5`, the run breaks out of the event loop with stop reason
`message_limit`, having requested an engine interrupt, and dispatches no
message beyond the first `maxTurns × 5` (the overflowing message and
everything after it never reach the `switch`). -/
theorem c5_message_ceiling (opts : AgentRunOptions) (items : List LoopItem)
    (ending : RunEnd) (reg0 : List String) (runId : String)
    (h : opts.maxTurns * 5 < countMsgs items) :
    (AgentService.run opts items ending reg0 runId).final.stopReason = StopReason.message_limit ∧
    (AgentService.run opts items ending reg0 runId).final.interrupted = true ∧
    (AgentService.run opts items ending reg0 runId).final.broke = true ∧
    (AgentService.run opts items ending reg0 runId).final.dispatched = opts.maxTurns * 5 := by
  obtain ⟨hb, hsr, hint, hdisp⟩ := loop_ceiling opts (opts.maxTurns * 5) items (initState opts)
    rfl rfl (Nat.zero_le _)
    (by show opts.maxTurns * 5 < 0 + countMsgs items; omega)
  have hrun : (AgentService.run opts items ending reg0 runId).final =
      (finishNormal opts (items.foldl (stepItem opts (opts.maxTurns * 5)) (initState opts))).1 := by
    simp only [AgentService.run, hb, if_true]
  rw [hrun]
  simp only [finishNormal]
  exact ⟨hsr, hint, hb, hdisp⟩

/-- Witness for **C5**: with `maxTurns = 1` (ceiling 5), a trace of six
delivered messages is classified `message_limit`, interrupted, and only
five messages are dispatched. -/
theorem c5_message_ceiling_witness :
    (AgentService.run sampleOpts (List.replicate 6 (LoopItem.msg SdkMessage.otherMessage))
        RunEnd.streamEnd [] "r1").final.stopReason = StopReason.message_limit ∧
    (AgentService.run sampleOpts (List.replicate 6 (LoopItem.msg SdkMessage.otherMessage))
        RunEnd.streamEnd [] "r1").final.interrupted = true ∧
    (AgentService.run sampleOpts (List.replicate 6 (LoopItem.msg SdkMessage.otherMessage))
        RunEnd.streamEnd [] "r1").final.dispatched = 5 := by
  have h := c5_message_ceiling sampleOpts
    (List.replicate 6 (LoopItem.msg SdkMessage.otherMessage)) RunEnd.streamEnd [] "r1"
    (by decide)
  exact ⟨h.1, h.2.1, h.2.2.2⟩

/-- Dispatching a `result` message applies the engine's reported subtype
only when the stop reason is still `unknown`. -/
theorem processMsg_result_stop (opts : AgentRunOptions) (st : RunState)
    (subtype : String) (resultField : Option String) (cost : ℚ)
    (dur turns : Nat) (usage : List ModelUsage) :
    (processMsg opts st (SdkMessage.result subtype resultField cost dur turns usage)).stopReason =
      if st.stopReason = StopReason.unknown then classifyResultSubtype subtype
      else st.stopReason := by
  simp only [processMsg]
  rw [accumUsage_fold_eq]

/-- Below the ceiling, a loop iteration dispatches the message. -/
theorem stepItem_msg_dispatch (opts : AgentRunOptions) (maxLoop : Nat)
    (st : RunState) (m : SdkMessage)
    (hb : st.broke = false) (hle : st.messageCount + 1 ≤ maxLoop) :
    stepItem opts maxLoop st (LoopItem.msg m) =
      processMsg opts
        { st with messageCount := st.messageCount + 1,
                  dispatched := st.dispatched + 1 } m := by
  simp only [stepItem, hb, Bool.false_eq_true, if_false]
  rw [if_neg (by omega)]

/-- **C4.** A stop reason set by a safety interrupt survives the engine's
terminal result event: (1) after a `message_limit` break the result event
is never consumed and the final stop reason stays `message_limit`;
(2) when the stale-timer callback has set `stale_timeout` and the result
event is dispatched (loop not broken, within the ceiling), the stop
reason remains `stale_timeout`; (3) the engine's reported subtype is
applied exactly when the stop reason is still `unknown` at the result
event. -/
theorem c4_safety_stop_reason_wins (opts : AgentRunOptions) (pre : List LoopItem)
    (subtype : String) (resultField : Option String) (cost : ℚ)
    (dur turns : Nat) (usage : List ModelUsage) :
    ((pre.foldl (stepItem opts (opts.maxTurns * 5)) (initState opts)).broke = true →
      (pre.foldl (stepItem opts (opts.maxTurns * 5)) (initState opts)).stopReason =
          StopReason.message_limit →
      ((pre ++ [LoopItem.msg (SdkMessage.result subtype resultField cost dur turns usage)]).foldl
          (stepItem opts (opts.maxTurns * 5)) (initState opts)).stopReason =
        StopReason.message_limit) ∧
    ((pre.foldl (stepItem opts (opts.maxTurns * 5)) (initState opts)).broke = false →
      (pre.foldl (stepItem opts (opts.maxTurns * 5)) (initState opts)).stopReason =
          StopReason.stale_timeout →
      (pre.foldl (stepItem opts (opts.maxTurns * 5)) (initState opts)).messageCount + 1 ≤
          opts.maxTurns * 5 →
      ((pre ++ [LoopItem.msg (SdkMessage.result subtype resultField cost dur turns usage)]).foldl
          (stepItem opts (opts.maxTurns * 5)) (initState opts)).stopReason =
        StopReason.stale_timeout) ∧
    ((pre.foldl (stepItem opts (opts.maxTurns * 5)) (initState opts)).broke = false →
      (pre.foldl (stepItem opts (opts.maxTurns * 5)) (initState opts)).stopReason =
          StopReason.unknown →
      (pre.foldl (stepItem opts (opts.maxTurns * 5)) (initState opts)).messageCount + 1 ≤
          opts.maxTurns * 5 →
      ((pre ++ [LoopItem.msg (SdkMessage.result subtype resultField cost dur turns usage)]).foldl
          (stepItem opts (opts.maxTurns * 5)) (initState opts)).stopReason =
        classifyResultSubtype subtype) := by
  rw [List.foldl_append]
  refine ⟨?_, ?_, ?_⟩
  · intro hb hs
    have habsorb : stepItem opts (opts.maxTurns * 5)
        (pre.foldl (stepItem opts (opts.maxTurns * 5)) (initState opts))
        (LoopItem.msg (SdkMessage.result subtype resultField cost dur turns usage)) =
        pre.foldl (stepItem opts (opts.maxTurns * 5)) (initState opts) := by
      simp [stepItem, hb]
    rw [List.foldl_cons, List.foldl_nil, habsorb, hs]
  · intro hb hs hle
    rw [List.foldl_cons, List.foldl_nil,
        stepItem_msg_dispatch opts (opts.maxTurns * 5) _ _ hb hle,
        processMsg_result_stop]
    simp [hs]
  · intro hb hs hle
    rw [List.foldl_cons, List.foldl_nil,
        stepItem_msg_dispatch opts (opts.maxTurns * 5) _ _ hb hle,
        processMsg_result_stop]
    simp [hs]

/-- Witness for **C4**: a fired stale timer survives a clean `end_turn`
result event, while a still-`unknown` run takes the engine's `max_turns`
classification. -/
theorem c4_safety_stop_reason_wins_witness :
    (([LoopItem.staleFire,
        LoopItem.msg (SdkMessage.result "end_turn" (some "ok") 0 5 1 [])].foldl
        (stepItem sampleOpts (sampleOpts.maxTurns * 5)) (initState sampleOpts)).stopReason =
      StopReason.stale_timeout) ∧
    (([LoopItem.msg (SdkMessage.result "max_turns" (some "ok") 0 5 1 [])].foldl
        (stepItem sampleOpts (sampleOpts.maxTurns * 5)) (initState sampleOpts)).stopReason =
      StopReason.max_turns) := by
  constructor
  · exact (c4_safety_stop_reason_wins sampleOpts [LoopItem.staleFire]
      "end_turn" (some "ok") 0 5 1 []).2.1 (by decide) (by decide) (by decide)
  · have h := (c4_safety_stop_reason_wins sampleOpts []
      "max_turns" (some "ok") 0 5 1 []).2.2 (by decide) (by decide) (by decide)
    rw [show ([LoopItem.msg (SdkMessage.result "max_turns" (some "ok") 0 5 1 [])] :
        List LoopItem) = [] ++ [LoopItem.msg (SdkMessage.result "max_turns" (some "ok") 0 5 1 [])]
      from rfl]
    rw [h]
    decide

/-- **C10.** Whenever `AgentService.run` settles — normally or by
rethrowing an engine error — the `finally` block has removed the run's
entry from the `activeQueries` registry and cleared its stale timer; the
other registry entries are untouched. -/
theorem c10_registry_cleanup (opts : AgentRunOptions) (items : List LoopItem)
    (ending : RunEnd) (reg0 : List String) (runId : String) :
    runId ∉ (AgentService.run opts items ending reg0 runId).registry ∧
    (AgentService.run opts items ending reg0 runId).staleTimerPending = false ∧
    ∀ x ∈ reg0, x ≠ runId → x ∈ (AgentService.run opts items ending reg0 runId).registry := by
  refine ⟨?_, rfl, ?_⟩
  · intro hmem
    have := (List.mem_filter.mp hmem).2
    simp at this
  · intro x hx hne
    apply List.mem_filter.mpr
    refine ⟨List.mem_append_left _ hx, by simpa using hne⟩

/-- Witness for **C10**: after a settled run, its id is gone from the
registry and an unrelated in-flight id remains. -/
theorem c10_registry_cleanup_witness :
    "r1" ∉ (AgentService.run sampleOpts [] RunEnd.streamEnd ["other"] "r1").registry ∧
    "other" ∈ (AgentService.run sampleOpts [] RunEnd.streamEnd ["other"] "r1").registry := by
  have h := c10_registry_cleanup sampleOpts [] RunEnd.streamEnd ["other"] "r1"
  exact ⟨h.1, h.2.2 "other" (by decide) (by decide)⟩

/-- **C6.** Counterexample to the claim that `interrupt(runId)` removes
the handle "regardless of whether cancellation is acknowledged":
the code `await`s `q.interrupt()` *before* the `delete`, so when the
cancellation rejects, the handle stays in the registry and the error
propagates. -/
theorem c6_interrupt_rejected_cancellation_keeps_handle :
    (AgentService.interrupt ["r1"] "r1" true).1 = ["r1"] ∧
    (AgentService.interrupt ["r1"] "r1" true).2 = true := by
  decide

/-- **C6 (amended).** For a registered run id, `interrupt` removes the
handle only after the awaited cancellation resolves; when the
cancellation rejects, the registry is left unchanged and the error
propagates to the caller. -/
theorem c6_interrupt_removes_only_after_resolution (registry : List String)
    (runId : String) (h : runId ∈ registry) :
    runId ∉ (AgentService.interrupt registry runId false).1 ∧
    (AgentService.interrupt registry runId false).2 = false ∧
    (AgentService.interrupt registry runId true).1 = registry ∧
    (AgentService.interrupt registry runId true).2 = true := by
  have hfind : (registry.find? (fun x => x == runId)).isSome :=
    List.find?_isSome.mpr ⟨runId, h, beq_self_eq_true runId⟩
  obtain ⟨y, hy⟩ := Option.isSome_iff_exists.mp hfind
  unfold AgentService.interrupt
  rw [hy]
  refine ⟨?_, rfl, rfl, rfl⟩
  intro hmem
  have := (List.mem_filter.mp hmem).2
  simp at this

/-- Witness for **C6 (amended)**: concrete registry with two runs. -/
theorem c6_interrupt_removes_only_after_resolution_witness :
    "r9" ∉ (AgentService.interrupt ["r9", "r2"] "r9" false).1 ∧
    (AgentService.interrupt ["r9", "r2"] "r9" true).1 = ["r9", "r2"] := by
  have h := c6_interrupt_removes_only_after_resolution ["r9", "r2"] "r9" (by decide)
  exact ⟨h.1, h.2.2.1⟩

/-- `userCount` distributes over append. -/
theorem userCount_append (a b : List ChatMsg) :
    userCount (a ++ b) = userCount a + userCount b := by
  simp [userCount, List.filter_append]

/-- `assistantCount` distributes over append. -/
theorem assistantCount_append (a b : List ChatMsg) :
    assistantCount (a ++ b) = assistantCount a + assistantCount b := by
  simp [assistantCount, List.filter_append]

/-- A user-message row counts as one user message. -/
theorem userCount_userMsg (opts : AgentRunOptions) (sid : String) :
    userCount [userMsg opts sid] = 1 := by
  simp [userCount, userMsg]

/-- A user-message row counts as no assistant message. -/
theorem assistantCount_userMsg (opts : AgentRunOptions) (sid : String) :
    assistantCount [userMsg opts sid] = 0 := by
  simp [assistantCount, userMsg]

/-- How one dispatched message changes the persisted rows, the init
counter and the captured session id: only a session-init message inserts
(a user message, and only when no truthy prior session id was supplied)
or changes the session id. -/
theorem processMsg_inserted (opts : AgentRunOptions) (st : RunState) (m : SdkMessage) :
    (processMsg opts st m).initCount =
      st.initCount + (match m with | SdkMessage.init _ => 1 | _ => 0) ∧
    (processMsg opts st m).inserted =
      st.inserted ++ (match m with
        | SdkMessage.init sid =>
            if optTruthy opts.sessionId then [] else [userMsg opts sid]
        | _ => []) ∧
    (processMsg opts st m).sessionId =
      (match m with | SdkMessage.init sid => sid | _ => st.sessionId) := by
  cases m with
  | init sid =>
      by_cases h : optTruthy opts.sessionId <;> simp [processMsg, h]
  | systemOther => simp [processMsg]
  | assistant blocks =>
      simp only [processMsg]
      rw [applyBlock_fold_eq blocks st]
      simp
  | tool_progress id name =>
      by_cases h : (st.toolCache.find? (fun p => p.1 == id)).isSome <;>
        simp [processMsg, h]
  | result subtype resultField cost dur turns usage =>
      simp only [processMsg]
      rw [accumUsage_fold_eq]
      simp
  | otherMessage => simp [processMsg]

/-- Unfolding `initSidsOk` one step. -/
theorem initSidsOk_cons (it : LoopItem) (t : List LoopItem)
    (h : initSidsOk (it :: t) = true) :
    initSidsOk t = true ∧
    (∀ sid, it = LoopItem.msg (SdkMessage.init sid) → sid ≠ "") := by
  cases it with
  | staleFire => exact ⟨h, by intro sid hcontra; cases hcontra⟩
  | msg m =>
      cases m with
      | init sid =>
          simp only [initSidsOk, Bool.and_eq_true] at h
          refine ⟨h.2, ?_⟩
          intro sid' heq
          cases heq
          simpa using h.1
      | systemOther => exact ⟨h, by intro sid hcontra; cases hcontra⟩
      | assistant blocks => exact ⟨h, by intro sid hcontra; cases hcontra⟩
      | tool_progress a b => exact ⟨h, by intro sid hcontra; cases hcontra⟩
      | result a b c d e f => exact ⟨h, by intro sid hcontra; cases hcontra⟩
      | otherMessage => exact ⟨h, by intro sid hcontra; cases hcontra⟩

/-- Event-loop invariant: the loop inserts user messages only at
session-init events (one per dispatched init when no prior session id was
supplied, none otherwise), inserts no assistant messages, and knows a
nonempty session id exactly when one was supplied or an init was
dispatched. -/
theorem loop_persisted_user_messages (opts : AgentRunOptions) (maxLoop : Nat) :
    ∀ (items : List LoopItem) (st : RunState),
      initSidsOk items = true →
      userCount st.inserted =
        (if optTruthy opts.sessionId then 1 else st.initCount) →
      assistantCount st.inserted = 0 →
      ((st.sessionId ≠ "") ↔ (optTruthy opts.sessionId = true ∨ 1 ≤ st.initCount)) →
      userCount ((items.foldl (stepItem opts maxLoop) st).inserted) =
        (if optTruthy opts.sessionId then 1
         else (items.foldl (stepItem opts maxLoop) st).initCount) ∧
      assistantCount ((items.foldl (stepItem opts maxLoop) st).inserted) = 0 ∧
      (((items.foldl (stepItem opts maxLoop) st).sessionId ≠ "") ↔
        (optTruthy opts.sessionId = true ∨
          1 ≤ (items.foldl (stepItem opts maxLoop) st).initCount)) := by
  intro items
  induction items with
  | nil => intro st _ h1 h2 h3; exact ⟨h1, h2, h3⟩
  | cons it t ih =>
      intro st hok h1 h2 h3
      obtain ⟨hokt, hsidok⟩ := initSidsOk_cons it t hok
      rw [List.foldl_cons]
      cases hb : st.broke with
      | true =>
          have hid : stepItem opts maxLoop st it = st := by simp [stepItem, hb]
          rw [hid]
          exact ih st hokt h1 h2 h3
      | false =>
          cases it with
          | staleFire =>
              have hstep : stepItem opts maxLoop st LoopItem.staleFire =
                  { st with stopReason := StopReason.stale_timeout, interrupted := true } := by
                simp [stepItem, hb]
              rw [hstep]
              exact ih _ hokt h1 h2 h3
          | msg m =>
              by_cases hover : st.messageCount + 1 > maxLoop
              · have hstep : stepItem opts maxLoop st (LoopItem.msg m) =
                    { st with messageCount := st.messageCount + 1,
                              stopReason := StopReason.message_limit,
                              interrupted := true, broke := true } := by
                  simp [stepItem, hb, hover]
                rw [hstep, foldl_stepItem_of_broke opts maxLoop t _ rfl]
                exact ⟨h1, h2, h3⟩
              · have hstep := stepItem_msg_dispatch opts maxLoop st m hb (by omega)
                rw [hstep]
                obtain ⟨hi, hins, hsid⟩ := processMsg_inserted opts
                  { st with messageCount := st.messageCount + 1,
                            dispatched := st.dispatched + 1 } m
                cases m with
                | init sid =>
                    refine ih _ hokt ?_ ?_ ?_
                    · rw [hins, userCount_append, hi]
                      by_cases hk : optTruthy opts.sessionId
                      · simp only [hk, if_true]
                        show userCount st.inserted + userCount [] = 1
                        rw [h1]
                        simp [hk, userCount]
                      · simp only [hk, Bool.false_eq_true, if_false]
                        show userCount st.inserted + userCount [userMsg opts sid] =
                          st.initCount + 1
                        rw [userCount_userMsg]
                        rw [h1]
                        simp [hk]
                    · rw [hins, assistantCount_append]
                      by_cases hk : optTruthy opts.sessionId
                      · simp only [hk, if_true]
                        show assistantCount st.inserted + assistantCount [] = 0
                        rw [h2]
                        simp [assistantCount]
                      · simp only [hk, Bool.false_eq_true, if_false]
                        show assistantCount st.inserted + assistantCount [userMsg opts sid] = 0
                        rw [h2, assistantCount_userMsg]
                    · rw [hsid, hi]
                      constructor
                      · intro _
                        right
                        show 1 ≤ st.initCount + 1
                        omega
                      · intro _
                        exact hsidok sid rfl
                | systemOther =>
                    refine ih _ hokt ?_ ?_ ?_
                    · rw [hins, userCount_append, hi]
                      simpa using h1
                    · rw [hins, assistantCount_append]
                      show assistantCount st.inserted + assistantCount [] = 0
                      rw [h2]
                      rfl
                    · rw [hsid, hi]
                      simpa using h3
                | assistant blocks =>
                    refine ih _ hokt ?_ ?_ ?_
                    · rw [hins, userCount_append, hi]
                      simpa using h1
                    · rw [hins, assistantCount_append]
                      show assistantCount st.inserted + assistantCount [] = 0
                      rw [h2]
                      rfl
                    · rw [hsid, hi]
                      simpa using h3
                | tool_progress a b =>
                    refine ih _ hokt ?_ ?_ ?_
                    · rw [hins, userCount_append, hi]
                      simpa using h1
                    · rw [hins, assistantCount_append]
                      show assistantCount st.inserted + assistantCount [] = 0
                      rw [h2]
                      rfl
                    · rw [hsid, hi]
                      simpa using h3
                | result a b c d e f =>
                    refine ih _ hokt ?_ ?_ ?_
                    · rw [hins, userCount_append, hi]
                      simpa using h1
                    · rw [hins, assistantCount_append]
                      show assistantCount st.inserted + assistantCount [] = 0
                      rw [h2]
                      rfl
                    · rw [hsid, hi]
                      simpa using h3
                | otherMessage =>
                    refine ih _ hokt ?_ ?_ ?_
                    · rw [hins, userCount_append, hi]
                      simpa using h1
                    · rw [hins, assistantCount_append]
                      show assistantCount st.inserted + assistantCount [] = 0
                      rw [h2]
                      rfl
                    · rw [hsid, hi]
                      simpa using h3

/-- Unfolding `countInits` one step. -/
theorem countInits_cons (it : LoopItem) (t : List LoopItem) :
    countInits (it :: t) = countInits [it] + countInits t := by
  cases it with
  | staleFire => simp [countInits]
  | msg m => cases m <;> simp [countInits] <;> omega

/-- Unfolding `countMsgs` one step. -/
theorem countMsgs_cons (it : LoopItem) (t : List LoopItem) :
    countMsgs (it :: t) = countMsgs [it] + countMsgs t := by
  cases it with
  | staleFire => simp [countMsgs]
  | msg m => simp [countMsgs]; omega

/-- The init-counter delta of a message equals its `countInits`. -/
theorem initDelta_eq (m : SdkMessage) :
    (match m with | SdkMessage.init _ => 1 | _ => 0) = countInits [LoopItem.msg m] := by
  cases m <;> rfl

/-- A trace whose messages fit under the ceiling is consumed without a
break, dispatching every message and every init event. -/
theorem loop_no_break (opts : AgentRunOptions) (maxLoop : Nat) :
    ∀ (items : List LoopItem) (st : RunState),
      st.broke = false →
      st.messageCount + countMsgs items ≤ maxLoop →
      (items.foldl (stepItem opts maxLoop) st).broke = false ∧
      (items.foldl (stepItem opts maxLoop) st).initCount = st.initCount + countInits items ∧
      (items.foldl (stepItem opts maxLoop) st).messageCount = st.messageCount + countMsgs items := by
  intro items
  induction items with
  | nil =>
      intro st hb _
      exact ⟨hb, by simp [countInits], by simp [countMsgs]⟩
  | cons it t ih =>
      intro st hb hc
      rw [List.foldl_cons]
      cases it with
      | staleFire =>
          have hstep : stepItem opts maxLoop st LoopItem.staleFire =
              { st with stopReason := StopReason.stale_timeout, interrupted := true } := by
            simp [stepItem, hb]
          rw [hstep]
          obtain ⟨a, b, c⟩ := ih
            { st with stopReason := StopReason.stale_timeout, interrupted := true }
            hb (by simpa [countMsgs] using hc)
          refine ⟨a, ?_, ?_⟩
          · rw [b]; simp [countInits]
          · rw [c]; simp [countMsgs]
      | msg m =>
          have hc1 : countMsgs (LoopItem.msg m :: t) = countMsgs t + 1 := by
            simp [countMsgs]
          have hstep := stepItem_msg_dispatch opts maxLoop st m hb (by omega)
          rw [hstep]
          obtain ⟨hi, hins, hsid⟩ := processMsg_inserted opts
            { st with messageCount := st.messageCount + 1,
                      dispatched := st.dispatched + 1 } m
          obtain ⟨hmc2, _, hb2, _⟩ := processMsg_book opts
            { st with messageCount := st.messageCount + 1,
                      dispatched := st.dispatched + 1 } m
          rw [hc1] at hc
          obtain ⟨a, b, c⟩ := ih _ (by rw [hb2]; exact hb)
            (by rw [hmc2]; show st.messageCount + 1 + countMsgs t ≤ maxLoop; omega)
          refine ⟨a, ?_, ?_⟩
          · rw [b, hi, initDelta_eq]
            show st.initCount + countInits [LoopItem.msg m] + countInits t =
              st.initCount + countInits (LoopItem.msg m :: t)
            rw [countInits_cons (LoopItem.msg m) t]
            omega
          · rw [c, hmc2]
            show st.messageCount + 1 + countMsgs t = st.messageCount + countMsgs (LoopItem.msg m :: t)
            rw [hc1]
            omega

/-- The loop invariant holds at the top of the `try` block. -/
theorem initState_facts (opts : AgentRunOptions) :
    userCount (initState opts).inserted =
      (if optTruthy opts.sessionId then 1 else (initState opts).initCount) ∧
    assistantCount (initState opts).inserted = 0 ∧
    (((initState opts).sessionId ≠ "") ↔
      (optTruthy opts.sessionId = true ∨ 1 ≤ (initState opts).initCount)) := by
  cases hos : opts.sessionId with
  | none =>
      refine ⟨?_, ?_, ?_⟩ <;>
        simp [initState, optTruthy, hos, userCount, assistantCount]
  | some s =>
      by_cases hs : s = ""
      · subst hs
        refine ⟨?_, ?_, ?_⟩ <;>
          simp [initState, optTruthy, hos, userCount, assistantCount]
      · refine ⟨?_, ?_, ?_⟩ <;>
          simp [initState, optTruthy, hos, hs, userCount, assistantCount, userMsg]

/-- The normal completion path stores exactly one assistant message. -/
theorem finishNormal_counts (opts : AgentRunOptions) (st : RunState) :
    userCount (finishNormal opts st).1.inserted = userCount st.inserted ∧
    assistantCount (finishNormal opts st).1.inserted = assistantCount st.inserted + 1 := by
  simp only [finishNormal]
  rw [userCount_append, assistantCount_append]
  constructor
  · simp [userCount]
  · simp [assistantCount]

/-- The catch path stores exactly one assistant message when a session id
is known. -/
theorem finishError_counts (opts : AgentRunOptions) (st : RunState)
    (msg : String) (nowErr : Nat) (h : st.sessionId ≠ "") :
    userCount (finishError opts st msg nowErr).inserted = userCount st.inserted ∧
    assistantCount (finishError opts st msg nowErr).inserted =
      assistantCount st.inserted + 1 := by
  have hb : (st.sessionId != "") = true := by simpa using h
  simp only [finishError, hb, if_true]
  rw [userCount_append, assistantCount_append]
  constructor
  · simp [userCount]
  · simp [assistantCount]

/-- The final state of a run: the normal path after a ceiling break or a
normal stream end, the catch path after a thrown engine error. -/
theorem run_final_eq (opts : AgentRunOptions) (items : List LoopItem)
    (ending : RunEnd) (reg0 : List String) (runId : String) :
    (AgentService.run opts items ending reg0 runId).final =
      (if (items.foldl (stepItem opts (opts.maxTurns * 5)) (initState opts)).broke then
        (finishNormal opts (items.foldl (stepItem opts (opts.maxTurns * 5)) (initState opts))).1
      else
        match ending with
        | RunEnd.streamEnd =>
            (finishNormal opts (items.foldl (stepItem opts (opts.maxTurns * 5)) (initState opts))).1
        | RunEnd.thrown msg nowErr =>
            finishError opts (items.foldl (stepItem opts (opts.maxTurns * 5)) (initState opts))
              msg nowErr) := by
  cases hb : (items.foldl (stepItem opts (opts.maxTurns * 5)) (initState opts)).broke <;>
    cases ending <;>
      simp [AgentService.run, hb]

/-- **C3 (amended).** Every invocation in which a session id becomes
known — a truthy prior `sessionId` was supplied, or exactly one
session-init event arrives within the message ceiling — persists exactly
one user-message row and exactly one assistant-message row, on the normal
path, after a ceiling break, and on the thrown-engine-error path alike. -/
theorem c3_one_user_one_assistant (opts : AgentRunOptions) (items : List LoopItem)
    (ending : RunEnd) (reg0 : List String) (runId : String)
    (hsids : initSidsOk items = true)
    (hknown : optTruthy opts.sessionId = true ∨
      (countInits items = 1 ∧ countMsgs items ≤ opts.maxTurns * 5)) :
    userCount (AgentService.run opts items ending reg0 runId).final.inserted = 1 ∧
    assistantCount (AgentService.run opts items ending reg0 runId).final.inserted = 1 := by
  obtain ⟨i1, i2, i3⟩ := initState_facts opts
  obtain ⟨u, a, s⟩ := loop_persisted_user_messages opts (opts.maxTurns * 5) items
    (initState opts) hsids i1 i2 i3
  rw [run_final_eq]
  set L := items.foldl (stepItem opts (opts.maxTurns * 5)) (initState opts) with hL
  have h0 : (initState opts).initCount = 0 := rfl
  have h1 : userCount L.inserted = 1 := by
    by_cases hk : optTruthy opts.sessionId = true
    · rw [u]
      simp [hk]
    · rcases hknown with hk' | ⟨hcI, hcM⟩
      · exact absurd hk' hk
      · obtain ⟨hb0, hic, _⟩ := loop_no_break opts (opts.maxTurns * 5) items
          (initState opts) rfl
          (by show (0 : Nat) + countMsgs items ≤ opts.maxTurns * 5; omega)
        rw [u, if_neg hk]
        rw [← hL] at hic
        omega
  have h2 : L.sessionId ≠ "" := by
    rcases hknown with hk | ⟨hcI, hcM⟩
    · exact s.mpr (Or.inl hk)
    · obtain ⟨hb0, hic, _⟩ := loop_no_break opts (opts.maxTurns * 5) items
        (initState opts) rfl
        (by show (0 : Nat) + countMsgs items ≤ opts.maxTurns * 5; omega)
      rw [← hL] at hic
      exact s.mpr (Or.inr (by omega))
  cases hb : L.broke with
  | true =>
      simp only [if_true]
      obtain ⟨f1, f2⟩ := finishNormal_counts opts L
      rw [f1, f2, h1, a]
      exact ⟨rfl, rfl⟩
  | false =>
      simp only [Bool.false_eq_true, if_false]
      cases ending with
      | streamEnd =>
          obtain ⟨f1, f2⟩ := finishNormal_counts opts L
          rw [f1, f2, h1, a]
          exact ⟨rfl, rfl⟩
      | thrown msg nowErr =>
          obtain ⟨f1, f2⟩ := finishError_counts opts L msg nowErr h2
          rw [f1, f2, h1, a]
          exact ⟨rfl, rfl⟩

/-- **C3.** Counterexample to the claim as stated: an invocation with no
prior session id whose engine throws before any session-init event
persists zero user-message and zero assistant-message rows (the catch
path inserts the synthesized assistant record only `if (sessionId)`). -/
theorem c3_no_session_no_records :
    userCount (AgentService.run sampleOpts [] (RunEnd.thrown "boom" 0) [] "r1").final.inserted = 0 ∧
    assistantCount (AgentService.run sampleOpts [] (RunEnd.thrown "boom" 0) [] "r1").final.inserted = 0 := by
  decide

/-- Witness for **C3 (amended)**: a run with a supplied session id whose
engine throws immediately still persists one user and one (synthesized)
assistant row. -/
theorem c3_one_user_one_assistant_witness :
    userCount (AgentService.run sampleOptsWithSession [] (RunEnd.thrown "boom" 0) [] "r1").final.inserted = 1 ∧
    assistantCount (AgentService.run sampleOptsWithSession [] (RunEnd.thrown "boom" 0) [] "r1").final.inserted = 1 :=
  c3_one_user_one_assistant sampleOptsWithSession [] (RunEnd.thrown "boom" 0) [] "r1"
    (by decide) (Or.inl (by decide))


/-- A fold of a componentwise pair function is the pair of the folds. -/
theorem foldl_pair {α β γ : Type} (f : α → γ → α) (g : β → γ → β)
    (L : List γ) : ∀ (a : α) (b : β),
    L.foldl (fun p j => (f p.1 j, g p.2 j)) (a, b) = (L.foldl f a, L.foldl g b) := by
  induction L with
  | nil => intro a b; rfl
  | cons x t ih =>
      intro a b
      rw [List.foldl_cons, List.foldl_cons, List.foldl_cons]
      exact ih _ _

/-- `reload` decomposes into its store effect and its trigger-arena
effect, both over the enabled snapshot taken before rescheduling. -/
theorem reload_eq (env : Scheduler.CronEnv) (now : Nat) (st : Store)
    (s : Scheduler.SchedState) :
    Scheduler.reload env now st s =
      ((getEnabledJobs st).foldl (Scheduler.scheduleJobStore env now) st,
       (getEnabledJobs st).foldl (Scheduler.scheduleJobSched env now) (Scheduler.stopAll s)) := by
  unfold Scheduler.reload
  exact foldl_pair _ _ _ _ _

/-- The store effect of scheduling one job is exactly its `nextRunWrite`,
if any. -/
theorem scheduleJobStore_eq (env : Scheduler.CronEnv) (now : Nat) (st : Store) (j : Job) :
    Scheduler.scheduleJobStore env now st j =
      match nextRunWrite env now j with
      | some t => updateJob st j.id (setNextRun t)
      | none => st := by
  unfold Scheduler.scheduleJobStore nextRunWrite
  by_cases hc : j.type = JobType.cron
  · simp only [hc, if_true]
    cases j.schedule with
    | none => rfl
    | some sch =>
        by_cases hv : env.valid sch
        · simp only [hv, if_true]
          cases env.next sch now <;> rfl
        · simp only [hv, Bool.false_eq_true, if_false]
  · simp only [hc, if_false]
    cases j.run_at with
    | none => rfl
    | some t =>
        by_cases ht : t ≤ now
        · simp only [ht, if_true]
        · simp only [ht, if_false]
          rfl

/-- The store effect of a whole reload replays its write list over every
row. -/
theorem storeFold_eq (env : Scheduler.CronEnv) (now : Nat) (L : List Job) :
    ∀ st : Store,
    L.foldl (Scheduler.scheduleJobStore env now) st =
      { st with jobs := st.jobs.map (applyWritesJob (writesOf env now L)) } := by
  induction L with
  | nil =>
      intro st
      show st = _
      cases st with
      | mk jobs runs =>
          have h : jobs.map (applyWritesJob (writesOf env now [])) = jobs :=
            list_map_eq_self _ _ (fun x _ => rfl)
          rw [h]
  | cons j L ih =>
      intro st
      rw [List.foldl_cons, scheduleJobStore_eq]
      cases hw : nextRunWrite env now j with
      | none =>
          rw [ih st]
          simp [writesOf, hw]
      | some t =>
          rw [ih (updateJob st j.id (setNextRun t))]
          simp only [writesOf, List.filterMap_cons, hw, Option.map_some]
          unfold updateJob
          simp only [List.map_map]
          rfl

/-- The last-write fold with an arbitrary accumulator. -/
theorem lastWrite_foldl_init (i : Nat) (ws : List (Nat × Nat)) :
    ∀ acc : Option Nat,
    ws.foldl (fun a w => if w.1 == i then some w.2 else a) acc =
      match lastWrite ws i with
      | some t => some t
      | none => acc := by
  induction ws with
  | nil => intro acc; rfl
  | cons w ws ih =>
      intro acc
      rw [List.foldl_cons]
      rw [ih]
      have hlw : lastWrite (w :: ws) i =
          match lastWrite ws i with
          | some t => some t
          | none => if w.1 == i then some w.2 else none := by
        show ws.foldl _ (if w.1 == i then some w.2 else none) = _
        rw [ih]
      rw [hlw]
      cases lastWrite ws i with
      | some t => rfl
      | none => by_cases hw : (w.1 == i) = true <;> simp [hw]

/-- Writing `next_run_at` preserves the row id. -/
theorem setNextRun_id (t : Nat) (x : Job) : (setNextRun t x).id = x.id := rfl

/-- Replaying a write list on a row applies exactly the last write
targeting its id. -/
theorem applyWritesJob_char (ws : List (Nat × Nat)) : ∀ x : Job,
    applyWritesJob ws x =
      match lastWrite ws x.id with
      | some t => setNextRun t x
      | none => x := by
  induction ws with
  | nil => intro x; rfl
  | cons w ws ih =>
      intro x
      show applyWritesJob ws (if x.id == w.1 then setNextRun w.2 x else x) = _
      have hlw : lastWrite (w :: ws) x.id =
          match lastWrite ws x.id with
          | some t => some t
          | none => if w.1 == x.id then some w.2 else none := by
        show ws.foldl _ (if w.1 == x.id then some w.2 else none) = _
        rw [lastWrite_foldl_init]
      rw [hlw]
      by_cases hw : x.id = w.1
      · have hb : (x.id == w.1) = true := by simp [hw]
        have hb' : (w.1 == x.id) = true := by simp [hw]
        rw [if_pos hb, ih (setNextRun w.2 x)]
        simp only [setNextRun_id, hb', if_true]
        cases lastWrite ws x.id <;> rfl
      · have hb : (x.id == w.1) = false := by simp [hw]
        have hb' : (w.1 == x.id) = false := by simp [Ne.symm hw]
        rw [if_neg (by simp [hb]), ih x]
        simp only [hb', Bool.false_eq_true, if_false]
        cases lastWrite ws x.id <;> rfl

/-- Write replay preserves the row id. -/
theorem applyWritesJob_id (ws : List (Nat × Nat)) (x : Job) :
    (applyWritesJob ws x).id = x.id := by
  rw [applyWritesJob_char]
  cases lastWrite ws x.id <;> rfl

/-- Replaying the same write list twice equals replaying it once. -/
theorem applyWritesJob_idem (ws : List (Nat × Nat)) (x : Job) :
    applyWritesJob ws (applyWritesJob ws x) = applyWritesJob ws x := by
  rw [applyWritesJob_char ws x]
  cases hlw : lastWrite ws x.id with
  | none => rw [applyWritesJob_char, hlw]
  | some t =>
      rw [applyWritesJob_char]
      rw [show (setNextRun t x).id = x.id from rfl, hlw]
      rfl

/-- Write replay changes none of the fields `reload` reads. -/
theorem applyWritesJob_schedFields (ws : List (Nat × Nat)) (x : Job) :
    schedFields (applyWritesJob ws x) = schedFields x := by
  rw [applyWritesJob_char]
  cases lastWrite ws x.id <;> rfl

/-- Write replay preserves the job status. -/
theorem applyWritesJob_status (ws : List (Nat × Nat)) (x : Job) :
    (applyWritesJob ws x).status = x.status := by
  rw [applyWritesJob_char]
  cases lastWrite ws x.id <;> rfl

/-- Unpacking an equality of scheduler-read fields. -/
theorem schedFields_components (j j' : Job) (h : schedFields j = schedFields j') :
    j.id = j'.id ∧ j.status = j'.status ∧ j.type = j'.type ∧
    j.schedule = j'.schedule ∧ j.run_at = j'.run_at := by
  simp only [schedFields, Prod.mk.injEq] at h
  exact ⟨h.1, h.2.1, h.2.2.1, h.2.2.2.1, h.2.2.2.2⟩

/-- `nextRunWrite` reads only the scheduler-read fields. -/
theorem nextRunWrite_congr (env : Scheduler.CronEnv) (now : Nat) (j j' : Job)
    (h : schedFields j = schedFields j') :
    nextRunWrite env now j = nextRunWrite env now j' := by
  obtain ⟨_, _, h3, h4, h5⟩ := schedFields_components j j' h
  unfold nextRunWrite
  rw [h3, h4, h5]

/-- The write list depends only on the scheduler-read fields of the
snapshot. -/
theorem writesOf_congr (env : Scheduler.CronEnv) (now : Nat) :
    ∀ (L L' : List Job), L.map schedFields = L'.map schedFields →
    writesOf env now L = writesOf env now L' := by
  intro L
  induction L with
  | nil =>
      intro L' h
      cases L' with
      | nil => rfl
      | cons a t => simp at h
  | cons j t ih =>
      intro L' h
      cases L' with
      | nil => simp at h
      | cons j' t' =>
          simp only [List.map_cons, List.cons.injEq] at h
          obtain ⟨h1, hid, _, _, _⟩ :=
            And.intro h.1 (schedFields_components j j' h.1)
          simp only [writesOf, List.filterMap_cons]
          rw [nextRunWrite_congr env now j j' h.1,
              (schedFields_components j j' h.1).1]
          have ht := ih t' h.2
          simp only [writesOf] at ht
          rw [ht]

/-- A status-preserving row map commutes with the enabled filter. -/
theorem getEnabledJobs_map_status (st : Store) (W : Job → Job)
    (h : ∀ x, (W x).status = x.status) :
    getEnabledJobs { st with jobs := st.jobs.map W } = (getEnabledJobs st).map W := by
  simp only [getEnabledJobs, List.filter_map]
  congr 1
  apply List.filter_congr
  intro x _
  simp [Function.comp, h x]

/-- Scheduling a job never cancels anything. -/
theorem scheduleJobSched_cancelled (env : Scheduler.CronEnv) (now : Nat)
    (s : Scheduler.SchedState) (j : Job) :
    (Scheduler.scheduleJobSched env now s j).cancelled = s.cancelled := by
  unfold Scheduler.scheduleJobSched
  by_cases hc : j.type = JobType.cron
  · simp only [hc, if_true]
    cases j.schedule with
    | none => rfl
    | some sch => by_cases hv : env.valid sch <;> simp [hv]
  · simp only [hc, if_false]
    cases j.run_at with
    | none => rfl
    | some t => by_cases ht : t ≤ now <;> simp [ht]

/-- Rescheduling never cancels anything: only `stopAll` does. -/
theorem schedFold_cancelled (env : Scheduler.CronEnv) (now : Nat)
    (L : List Job) : ∀ s : Scheduler.SchedState,
    (L.foldl (Scheduler.scheduleJobSched env now) s).cancelled = s.cancelled := by
  induction L with
  | nil => intro s; rfl
  | cons j t ih =>
      intro s
      rw [List.foldl_cons, ih, scheduleJobSched_cancelled]

/-- The cron map gains at most the job's own id. -/
theorem scheduleJobSched_cronKeys (env : Scheduler.CronEnv) (now : Nat)
    (s : Scheduler.SchedState) (j : Job) :
    (Scheduler.scheduleJobSched env now s j).cronJobs.map Prod.fst =
      s.cronJobs.map Prod.fst ++ (cronArmKey env j).toList := by
  unfold Scheduler.scheduleJobSched cronArmKey
  by_cases hc : j.type = JobType.cron
  · simp only [hc, if_true]
    cases j.schedule with
    | none => simp
    | some sch => by_cases hv : env.valid sch <;> simp [hv]
  · simp only [hc, if_false]
    cases j.run_at with
    | none => simp
    | some t => by_cases ht : t ≤ now <;> simp [ht]

/-- The timer map gains at most the job's own id. -/
theorem scheduleJobSched_timerKeys (env : Scheduler.CronEnv) (now : Nat)
    (s : Scheduler.SchedState) (j : Job) :
    (Scheduler.scheduleJobSched env now s j).timers.map Prod.fst =
      s.timers.map Prod.fst ++ (timerArmKey now j).toList := by
  unfold Scheduler.scheduleJobSched timerArmKey
  by_cases hc : j.type = JobType.cron
  · simp only [hc, if_true]
    cases j.schedule with
    | none => simp
    | some sch => by_cases hv : env.valid sch <;> simp [hv]
  · simp only [hc, if_false]
    cases j.run_at with
    | none => simp
    | some t => by_cases ht : t ≤ now <;> simp [ht]

/-- Job ids holding a recurring trigger after rescheduling. -/
theorem schedFold_cronKeys (env : Scheduler.CronEnv) (now : Nat)
    (L : List Job) : ∀ s : Scheduler.SchedState,
    (L.foldl (Scheduler.scheduleJobSched env now) s).cronJobs.map Prod.fst =
      s.cronJobs.map Prod.fst ++ L.filterMap (cronArmKey env) := by
  induction L with
  | nil => intro s; simp
  | cons j t ih =>
      intro s
      rw [List.foldl_cons, ih, scheduleJobSched_cronKeys]
      cases hk : cronArmKey env j <;> simp [hk]

/-- Job ids holding a one-shot timer after rescheduling. -/
theorem schedFold_timerKeys (env : Scheduler.CronEnv) (now : Nat)
    (L : List Job) : ∀ s : Scheduler.SchedState,
    (L.foldl (Scheduler.scheduleJobSched env now) s).timers.map Prod.fst =
      s.timers.map Prod.fst ++ L.filterMap (timerArmKey now) := by
  induction L with
  | nil => intro s; simp
  | cons j t ih =>
      intro s
      rw [List.foldl_cons, ih, scheduleJobSched_timerKeys]
      cases hk : timerArmKey now j <;> simp [hk]

/-- Whether a cron trigger is armed depends only on scheduler-read
fields. -/
theorem cronArmKey_congr (env : Scheduler.CronEnv) (j j' : Job)
    (h : schedFields j = schedFields j') : cronArmKey env j = cronArmKey env j' := by
  obtain ⟨h1, _, h3, h4, h5⟩ := schedFields_components j j' h
  unfold cronArmKey
  rw [h1, h3, h4]

/-- Whether a timer is armed depends only on scheduler-read fields. -/
theorem timerArmKey_congr (now : Nat) (j j' : Job)
    (h : schedFields j = schedFields j') : timerArmKey now j = timerArmKey now j' := by
  obtain ⟨h1, _, h3, h4, h5⟩ := schedFields_components j j' h
  unfold timerArmKey
  rw [h1, h3, h5]

/-- filterMap congruence along equal scheduler-read fields. -/
theorem filterMap_congr_schedFields {f g : Job → Option Nat}
    (hfg : ∀ j j', schedFields j = schedFields j' → f j = g j') :
    ∀ (L L' : List Job), L.map schedFields = L'.map schedFields →
    L.filterMap f = L'.filterMap g := by
  intro L
  induction L with
  | nil =>
      intro L' h
      cases L' with
      | nil => rfl
      | cons a t => simp at h
  | cons j t ih =>
      intro L' h
      cases L' with
      | nil => simp at h
      | cons j' t' =>
          simp only [List.map_cons, List.cons.injEq] at h
          simp only [List.filterMap_cons]
          rw [hfg j j' h.1, ih t' h.2]

/-- **C8.** Calling `reload()` twice with the same current time is
idempotent: the second reload leaves the persisted store — in particular
every job's `next_run_at` — exactly as the first left it; every
recurring trigger and timer handle installed by the first reload is
cancelled by the second before rescheduling; and the set of jobs holding
an armed cron trigger resp. timer is unchanged, keyed by job id with at
most one trigger per job. -/
theorem c8_reload_idempotent (env : Scheduler.CronEnv) (now : Nat)
    (st : Store) (s : Scheduler.SchedState) :
    (Scheduler.reload env now (Scheduler.reload env now st s).1
        (Scheduler.reload env now st s).2).1 =
      (Scheduler.reload env now st s).1 ∧
    (∀ h ∈ (Scheduler.reload env now st s).2.cronJobs.map Prod.snd ++
        (Scheduler.reload env now st s).2.timers.map Prod.snd,
      h ∈ (Scheduler.reload env now (Scheduler.reload env now st s).1
        (Scheduler.reload env now st s).2).2.cancelled) ∧
    (Scheduler.reload env now (Scheduler.reload env now st s).1
        (Scheduler.reload env now st s).2).2.cronJobs.map Prod.fst =
      (Scheduler.reload env now st s).2.cronJobs.map Prod.fst ∧
    (Scheduler.reload env now (Scheduler.reload env now st s).1
        (Scheduler.reload env now st s).2).2.timers.map Prod.fst =
      (Scheduler.reload env now st s).2.timers.map Prod.fst := by
  have hst1 : (Scheduler.reload env now st s).1 =
      { st with jobs := st.jobs.map (applyWritesJob (writesOf env now (getEnabledJobs st))) } := by
    rw [reload_eq]
    exact storeFold_eq env now (getEnabledJobs st) st
  have hL2 : getEnabledJobs (Scheduler.reload env now st s).1 =
      (getEnabledJobs st).map (applyWritesJob (writesOf env now (getEnabledJobs st))) := by
    rw [hst1]
    exact getEnabledJobs_map_status st _ (applyWritesJob_status _)
  have hsf : ((getEnabledJobs st).map
        (applyWritesJob (writesOf env now (getEnabledJobs st)))).map schedFields =
      (getEnabledJobs st).map schedFields := by
    rw [List.map_map]
    exact List.map_congr_left (fun j _ => applyWritesJob_schedFields _ j)
  have hws2 : writesOf env now (getEnabledJobs (Scheduler.reload env now st s).1) =
      writesOf env now (getEnabledJobs st) := by
    rw [hL2]
    exact writesOf_congr env now _ _ hsf
  have hL2f : getEnabledJobs ((getEnabledJobs st).foldl (Scheduler.scheduleJobStore env now) st) =
      (getEnabledJobs st).map (applyWritesJob (writesOf env now (getEnabledJobs st))) := by
    rw [storeFold_eq]
    exact getEnabledJobs_map_status st _ (applyWritesJob_status _)
  refine ⟨?_, ?_, ?_, ?_⟩
  · rw [reload_eq env now (Scheduler.reload env now st s).1, storeFold_eq, hws2, hst1]
    have hmm : ((st.jobs.map (applyWritesJob (writesOf env now (getEnabledJobs st)))).map
          (applyWritesJob (writesOf env now (getEnabledJobs st)))) =
        st.jobs.map (applyWritesJob (writesOf env now (getEnabledJobs st))) := by
      rw [List.map_map]
      exact List.map_congr_left (fun j _ => applyWritesJob_idem _ j)
    rw [hmm]
  · intro h hmem
    have hcanc : (Scheduler.reload env now (Scheduler.reload env now st s).1
        (Scheduler.reload env now st s).2).2.cancelled =
        (Scheduler.stopAll (Scheduler.reload env now st s).2).cancelled := by
      rw [reload_eq]
      exact schedFold_cancelled env now _ _
    rw [hcanc]
    show h ∈ (Scheduler.reload env now st s).2.cancelled ++
      (Scheduler.reload env now st s).2.cronJobs.map Prod.snd ++
      (Scheduler.reload env now st s).2.timers.map Prod.snd
    rcases List.mem_append.mp hmem with hcron | htimer
    · exact List.mem_append_left _ (List.mem_append_right _ hcron)
    · exact List.mem_append_right _ htimer
  · rw [reload_eq env now (Scheduler.reload env now st s).1, reload_eq env now st s]
    rw [schedFold_cronKeys, schedFold_cronKeys]
    show (Scheduler.stopAll (Scheduler.reload env now st s).2).cronJobs.map Prod.fst ++ _ =
      (Scheduler.stopAll s).cronJobs.map Prod.fst ++ _
    rw [show (Scheduler.stopAll (Scheduler.reload env now st s).2).cronJobs = [] from rfl,
        show (Scheduler.stopAll s).cronJobs = [] from rfl]
    simp only [List.map_nil, List.nil_append]
    rw [hL2f]
    exact filterMap_congr_schedFields (fun j j' hjj => cronArmKey_congr env j j' hjj) _ _ hsf
  · rw [reload_eq env now (Scheduler.reload env now st s).1, reload_eq env now st s]
    rw [schedFold_timerKeys, schedFold_timerKeys]
    show (Scheduler.stopAll (Scheduler.reload env now st s).2).timers.map Prod.fst ++ _ =
      (Scheduler.stopAll s).timers.map Prod.fst ++ _
    rw [show (Scheduler.stopAll (Scheduler.reload env now st s).2).timers = [] from rfl,
        show (Scheduler.stopAll s).timers = [] from rfl]
    simp only [List.map_nil, List.nil_append]
    rw [hL2f]
    exact filterMap_congr_schedFields (fun j j' hjj => timerArmKey_congr now j j' hjj) _ _ hsf

/-- Witness for **C8**: one enabled cron job; the handle armed by the
first reload is cancelled by the second, and the store is unchanged. -/
theorem c8_reload_idempotent_witness :
    (0 : Nat) ∈ (Scheduler.reload envAll 1000 (Scheduler.reload envAll 1000 cleanStore emptySched).1
      (Scheduler.reload envAll 1000 cleanStore emptySched).2).2.cancelled ∧
    (Scheduler.reload envAll 1000 (Scheduler.reload envAll 1000 cleanStore emptySched).1
      (Scheduler.reload envAll 1000 cleanStore emptySched).2).1 =
      (Scheduler.reload envAll 1000 cleanStore emptySched).1 := by
  have h := c8_reload_idempotent envAll 1000 cleanStore emptySched
  exact ⟨h.2.1 0 (by decide), h.1⟩


/-- A hit of `lastIndexOf` is within the bound and holds the searched
character. -/
theorem lastIndexOf_sound (s : List Char) (c : Char) (b i : Nat)
    (h : lastIndexOf s c b = some i) : i ≤ b ∧ s[i]? = some c := by
  unfold lastIndexOf at h
  have hmem : i ∈ (((s.take (b + 1)).enum.filter (fun p => p.2 == c)).map Prod.fst) :=
    List.mem_of_mem_getLast? (Option.mem_def.mpr h)
  obtain ⟨p, hp, hpi⟩ := List.mem_map.mp hmem
  obtain ⟨henum, hbeq⟩ := List.mem_filter.mp hp
  have hpair : (p.1, p.2) ∈ (s.take (b + 1)).enum := by
    simpa using henum
  rw [List.mk_mem_enum_iff_getElem?] at hpair
  rw [List.getElem?_take] at hpair
  by_cases hlt : p.1 < b + 1
  · rw [if_pos hlt] at hpair
    have hc : p.2 = c := by simpa using hbeq
    subst hpi
    exact ⟨by omega, by rw [hpair, hc]⟩
  · rw [if_neg hlt] at hpair
    cases hpair

/-- The chosen split point is never below half the window. -/
theorem chooseSplit_ge_half (r : List Char) :
    MAX_MESSAGE_LENGTH / 2 ≤ chooseSplit r := by
  unfold chooseSplit
  cases lastIndexOf r '\n' MAX_MESSAGE_LENGTH with
  | none =>
      cases lastIndexOf r ' ' MAX_MESSAGE_LENGTH with
      | none => simp [MAX_MESSAGE_LENGTH]
      | some i =>
          by_cases h : i < MAX_MESSAGE_LENGTH / 2 <;> simp [h] <;> omega
  | some i =>
      by_cases h : i < MAX_MESSAGE_LENGTH / 2
      · simp only [h, if_true]
        cases lastIndexOf r ' ' MAX_MESSAGE_LENGTH with
        | none => simp [MAX_MESSAGE_LENGTH]
        | some i' =>
            by_cases h' : i' < MAX_MESSAGE_LENGTH / 2 <;> simp [h'] <;> omega
      · simp only [h, if_false, if_neg h]
        omega

/-- The chosen split point never exceeds the window. -/
theorem chooseSplit_le_max (r : List Char) :
    chooseSplit r ≤ MAX_MESSAGE_LENGTH := by
  unfold chooseSplit
  cases hnl : lastIndexOf r '\n' MAX_MESSAGE_LENGTH with
  | none =>
      cases hsp : lastIndexOf r ' ' MAX_MESSAGE_LENGTH with
      | none => simp
      | some i =>
          have := (lastIndexOf_sound r ' ' MAX_MESSAGE_LENGTH i hsp).1
          by_cases h : i < MAX_MESSAGE_LENGTH / 2 <;> simp [h] <;> omega
  | some i =>
      by_cases h : i < MAX_MESSAGE_LENGTH / 2
      · simp only [h, if_true]
        cases hsp : lastIndexOf r ' ' MAX_MESSAGE_LENGTH with
        | none => simp
        | some i' =>
            have := (lastIndexOf_sound r ' ' MAX_MESSAGE_LENGTH i' hsp).1
            by_cases h' : i' < MAX_MESSAGE_LENGTH / 2 <;> simp [h'] <;> omega
      · have := (lastIndexOf_sound r '\n' MAX_MESSAGE_LENGTH i hnl).1
        simp only [h, if_false, if_neg h]
        omega

/-- The chosen split point is a newline, a space, or the hard cut. -/
theorem chooseSplit_boundary (r : List Char) :
    r[chooseSplit r]? = some '\n' ∨ r[chooseSplit r]? = some ' ' ∨
      chooseSplit r = MAX_MESSAGE_LENGTH := by
  unfold chooseSplit
  cases hnl : lastIndexOf r '\n' MAX_MESSAGE_LENGTH with
  | none =>
      cases hsp : lastIndexOf r ' ' MAX_MESSAGE_LENGTH with
      | none => right; right; rfl
      | some i =>
          by_cases h : i < MAX_MESSAGE_LENGTH / 2
          · simp only [h, if_true]
            right; right; trivial
          · simp only [h, if_false, if_neg h]
            right; left
            exact (lastIndexOf_sound r ' ' MAX_MESSAGE_LENGTH i hsp).2
  | some i =>
      by_cases h : i < MAX_MESSAGE_LENGTH / 2
      · simp only [h, if_true]
        cases hsp : lastIndexOf r ' ' MAX_MESSAGE_LENGTH with
        | none => right; right; rfl
        | some i' =>
            by_cases h' : i' < MAX_MESSAGE_LENGTH / 2
            · simp only [h', if_true]
              right; right; trivial
            · simp only [h', if_false, if_neg h']
              right; left
              exact (lastIndexOf_sound r ' ' MAX_MESSAGE_LENGTH i' hsp).2
      · simp only [h, if_false, if_neg h]
        left
        exact (lastIndexOf_sound r '\n' MAX_MESSAGE_LENGTH i hnl).2

/-- One unfolding of the splitting loop on an over-long remainder. -/
theorem splitLoop_gt (r : List Char) (h : MAX_MESSAGE_LENGTH < r.length) :
    splitLoop r =
      r.take (chooseSplit r) :: splitLoop (trimStart (r.drop (chooseSplit r))) := by
  rw [splitLoop]
  rw [if_neg (by omega), if_neg (by omega)]

/-- `splitMessage` on over-long text takes one cut and recurses. -/
theorem splitMessage_gt (text : List Char) (h : MAX_MESSAGE_LENGTH < text.length) :
    splitMessage text =
      text.take (chooseSplit text) ::
        splitLoop (trimStart (text.drop (chooseSplit text))) := by
  unfold splitMessage
  rw [if_neg (by omega)]
  exact splitLoop_gt text h

/-- Every chunk the loop produces fits in the window. -/
theorem splitLoop_chunks_le (n : Nat) : ∀ (r : List Char), r.length ≤ n →
    ∀ c ∈ splitLoop r, c.length ≤ MAX_MESSAGE_LENGTH := by
  induction n with
  | zero =>
      intro r hr c hc
      have h0 : r.length = 0 := by omega
      rw [splitLoop, if_pos h0] at hc
      cases hc
  | succ n ih =>
      intro r hr c hc
      by_cases h0 : r.length = 0
      · rw [splitLoop, if_pos h0] at hc
        cases hc
      · by_cases h1 : r.length ≤ MAX_MESSAGE_LENGTH
        · rw [splitLoop, if_neg h0, if_pos h1] at hc
          rw [List.mem_singleton] at hc
          subst hc
          exact h1
        · rw [splitLoop_gt r (by omega)] at hc
          rcases List.mem_cons.mp hc with hc1 | hc2
          · subst hc1
            rw [List.length_take]
            have := chooseSplit_le_max r
            omega
          · apply ih (trimStart (r.drop (chooseSplit r))) ?_ c hc2
            have hd : (trimStart (r.drop (chooseSplit r))).length ≤
                (r.drop (chooseSplit r)).length :=
              (List.dropWhile_suffix _).length_le
            rw [List.length_drop] at hd
            have := chooseSplit_ge_half r
            simp only [MAX_MESSAGE_LENGTH] at *
            omega

/-- The chunks, concatenated in order, are an in-order sub-sequence of the
remainder (only boundary whitespace is dropped between chunks). -/
theorem splitLoop_flatten_sublist (n : Nat) : ∀ (r : List Char), r.length ≤ n →
    (splitLoop r).flatten.Sublist r := by
  induction n with
  | zero =>
      intro r hr
      have h0 : r.length = 0 := by omega
      rw [splitLoop, if_pos h0]
      exact List.nil_sublist r
  | succ n ih =>
      intro r hr
      by_cases h0 : r.length = 0
      · rw [splitLoop, if_pos h0]
        exact List.nil_sublist r
      · by_cases h1 : r.length ≤ MAX_MESSAGE_LENGTH
        · rw [splitLoop, if_neg h0, if_pos h1]
          simp
        · rw [splitLoop_gt r (by omega), List.flatten_cons]
          have hrest : (splitLoop (trimStart (r.drop (chooseSplit r)))).flatten.Sublist
              (trimStart (r.drop (chooseSplit r))) := by
            apply ih
            have hd : (trimStart (r.drop (chooseSplit r))).length ≤
                (r.drop (chooseSplit r)).length :=
              (List.dropWhile_suffix _).length_le
            rw [List.length_drop] at hd
            have := chooseSplit_ge_half r
            simp only [MAX_MESSAGE_LENGTH] at *
            omega
          have htrim : (trimStart (r.drop (chooseSplit r))).Sublist (r.drop (chooseSplit r)) :=
            (List.dropWhile_suffix _).sublist
          have happ := List.Sublist.append
            (List.Sublist.refl (r.take (chooseSplit r))) (hrest.trans htrim)
          rw [List.take_append_drop] at happ
          exact happ

/-- **C9 (amended).** `splitMessage` (1) produces only chunks of at most
4096 characters; (2) returns text of at most 4096 characters as a single
chunk; (3) produces the chunks in the original order — their in-order
concatenation is a sub-sequence of the text (only the whitespace trimmed
at cut points is dropped); (4) on over-long text cuts at `chooseSplit`
and recurses on the trimmed rest; and (5) every cut point lies in the
upper half of the window (index in [2048, 4096]) and is a newline, a
space, or the hard cut at exactly 4096. -/
theorem c9_split_message (text : List Char) :
    (∀ c ∈ splitMessage text, c.length ≤ MAX_MESSAGE_LENGTH) ∧
    (text.length ≤ MAX_MESSAGE_LENGTH → splitMessage text = [text]) ∧
    (splitMessage text).flatten.Sublist text ∧
    (MAX_MESSAGE_LENGTH < text.length →
      splitMessage text =
        text.take (chooseSplit text) ::
          splitLoop (trimStart (text.drop (chooseSplit text)))) ∧
    (∀ r : List Char,
      (MAX_MESSAGE_LENGTH / 2 ≤ chooseSplit r ∧ chooseSplit r ≤ MAX_MESSAGE_LENGTH) ∧
      (r[chooseSplit r]? = some '\n' ∨ r[chooseSplit r]? = some ' ' ∨
        chooseSplit r = MAX_MESSAGE_LENGTH)) := by
  refine ⟨?_, ?_, ?_, splitMessage_gt text, ?_⟩
  · intro c hc
    by_cases h1 : text.length ≤ MAX_MESSAGE_LENGTH
    · unfold splitMessage at hc
      rw [if_pos h1, List.mem_singleton] at hc
      subst hc
      exact h1
    · unfold splitMessage at hc
      rw [if_neg h1] at hc
      exact splitLoop_chunks_le text.length text le_rfl c hc
  · intro h1
    unfold splitMessage
    rw [if_pos h1]
  · by_cases h1 : text.length ≤ MAX_MESSAGE_LENGTH
    · unfold splitMessage
      rw [if_pos h1]
      simp
    · unfold splitMessage
      rw [if_neg h1]
      exact splitLoop_flatten_sublist text.length text le_rfl
  · intro r
    exact ⟨⟨chooseSplit_ge_half r, chooseSplit_le_max r⟩, chooseSplit_boundary r⟩

/-- Witness for **C9 (amended)**: a short text is returned as a single
chunk within the bound. -/
theorem c9_split_message_witness :
    splitMessage ['h', 'i'] = [['h', 'i']] ∧
    (∀ c ∈ splitMessage ['h', 'i'], c.length ≤ MAX_MESSAGE_LENGTH) :=
  ⟨(c9_split_message ['h', 'i']).2.1 (by decide), (c9_split_message ['h', 'i']).1⟩

/-- `hardT` is longer than one chunk. -/
theorem hardT_length : hardT.length = 5101 := by
  unfold hardT
  rw [List.length_append, List.length_cons, List.length_replicate,
      List.length_replicate]

/-- A replicate of a different character contributes no hits. -/
theorem filter_enumFrom_replicate (c ch : Char) (hne : (ch == c) = false) :
    ∀ (m n : Nat),
    (List.enumFrom n (List.replicate m ch)).filter (fun p => p.2 == c) = [] := by
  intro m
  induction m with
  | zero => intro n; rfl
  | succ m ih =>
      intro n
      rw [List.replicate_succ, List.enumFrom_cons, List.filter_cons]
      simp only [hne, Bool.false_eq_true, if_false]
      exact ih (n + 1)

/-- The search window of `hardT`. -/
theorem hardT_take : hardT.take 4097 =
    List.replicate 100 'a' ++ '\n' :: List.replicate 3996 'b' := by
  unfold hardT
  rw [List.take_append_eq_append_take]
  rw [List.take_all_of_le (by rw [List.length_replicate]; omega)]
  rw [show (4097 - (List.replicate 100 'a').length) = 3996 + 1 by
    rw [List.length_replicate]]
  rw [List.take_succ_cons, List.take_replicate]
  rw [show (3996 ⊓ 5000) = 3996 from rfl]

/-- The only newline in `hardT`'s window is at index 100. -/
theorem hardT_lastIndexOf_nl : lastIndexOf hardT '\n' MAX_MESSAGE_LENGTH = some 100 := by
  unfold lastIndexOf MAX_MESSAGE_LENGTH
  rw [show (4096 + 1) = 4097 from rfl, hardT_take]
  rw [List.enum_eq_enumFrom, List.enumFrom_append]
  rw [List.filter_append]
  rw [filter_enumFrom_replicate '\n' 'a' (by decide)]
  rw [show (List.replicate 100 'a').length = 100 from List.length_replicate 100 'a']
  rw [List.enumFrom_cons, List.filter_cons]
  simp only [beq_self_eq_true, if_true]
  rw [filter_enumFrom_replicate '\n' 'b' (by decide)]
  rfl

/-- `hardT` contains no space. -/
theorem hardT_lastIndexOf_sp : lastIndexOf hardT ' ' MAX_MESSAGE_LENGTH = none := by
  unfold lastIndexOf MAX_MESSAGE_LENGTH
  rw [show (4096 + 1) = 4097 from rfl, hardT_take]
  rw [List.enum_eq_enumFrom, List.enumFrom_append]
  rw [List.filter_append]
  rw [filter_enumFrom_replicate ' ' 'a' (by decide)]
  rw [show (List.replicate 100 'a').length = 100 from List.length_replicate 100 'a']
  rw [List.enumFrom_cons, List.filter_cons]
  simp only [show (('\n' == ' ') = false) from by decide, Bool.false_eq_true, if_false]
  rw [filter_enumFrom_replicate ' ' 'b' (by decide)]
  rfl

/-- The newline at index 100 is below half the window, so the split point
falls back to the hard cut. -/
theorem hardT_chooseSplit : chooseSplit hardT = MAX_MESSAGE_LENGTH := by
  unfold chooseSplit
  rw [hardT_lastIndexOf_nl, hardT_lastIndexOf_sp]
  rfl

/-- **C9.** Counterexample to the claim that "the split point falls at a
line or word boundary where possible": `hardT` has a line boundary at
index 100 — inside the 4096-character window, so a boundary split is
possible — yet the first chunk is a hard cut of exactly 4096 characters
ending in the middle of a word (`hardT[4096] = 'b'`), because the code
only accepts boundaries at index ≥ 2048. -/
theorem c9_boundary_below_half_window_is_ignored :
    hardT[(100 : Nat)]? = some '\n' ∧
    (100 : Nat) < MAX_MESSAGE_LENGTH ∧
    MAX_MESSAGE_LENGTH < hardT.length ∧
    (splitMessage hardT).head? = some (hardT.take MAX_MESSAGE_LENGTH) ∧
    (hardT.take MAX_MESSAGE_LENGTH).length = MAX_MESSAGE_LENGTH ∧
    hardT[MAX_MESSAGE_LENGTH]? = some 'b' := by
  refine ⟨?_, by decide, ?_, ?_, ?_, ?_⟩
  · unfold hardT
    rw [List.getElem?_append_right (by rw [List.length_replicate])]
    rw [show ((100 : Nat) - (List.replicate 100 'a').length) = 0 by
      rw [List.length_replicate]]
    exact List.getElem?_cons_zero
  · rw [hardT_length]
    decide
  · rw [splitMessage_gt hardT (by rw [hardT_length]; decide)]
    rw [hardT_chooseSplit]
    rfl
  · rw [List.length_take, hardT_length]
    decide
  · unfold hardT MAX_MESSAGE_LENGTH
    rw [List.getElem?_append_right (by rw [List.length_replicate]; omega)]
    rw [show ((4096 : Nat) - (List.replicate 100 'a').length) = 3995 + 1 by
      rw [List.length_replicate]]
    rw [List.getElem?_cons_succ, List.getElem?_replicate]
    decide

end Psibot
